import Mathlib

/-!
Verification of the Darya workflow control plane: a shallow embedding of the
redaction layer (`openhands/server/redaction.py`), the payload fingerprint
(`connector_service.py` and `sqlite_store.py`), the completion notifier
(`workflow_notifier.py`) and the workflow engine (`workflow_engine.py`),
together with theorems about redaction at rest, fingerprint stability, the
approval-gate check, invariant I-R2, terminal-state behaviour and webhook
signing.
-/

set_option maxRecDepth 100000

namespace Darya

/-- The mask inserted by the redactor. -/
def stars : List Char := ['*', '*', '*']

/-- Fuel-bounded core of `replaceAll`; any fuel of at least `t.length` gives
the untruncated result (`replaceAllF_fuel`). -/
def replaceAllF : Nat → List Char → List Char → List Char
  | 0, _, _ => []
  | fuel + 1, t, p =>
    match t with
    | [] => []
    | c :: rest =>
      if p ≠ [] ∧ p <+: (c :: rest) then
        stars ++ replaceAllF fuel ((c :: rest).drop p.length) p
      else
        c :: replaceAllF fuel rest p

/-- Python `text.replace(p, "***")`: greedy leftmost non-overlapping replacement.
The redactor never calls this with an empty pattern (empty secrets are skipped),
so no clause models Python's special empty-pattern behaviour. -/
def replaceAll (t p : List Char) : List Char :=
  replaceAllF t.length t p

/-- The literal-value phase of `redact_text`: replace every non-empty secret
value with `***`, in list order (`for secret in secret_values: if secret: ...`). -/
def valuePass (t : List Char) (secrets : List (List Char)) : List Char :=
  secrets.foldl (fun acc s => if s = [] then acc else replaceAll acc s) t

/-- ASCII whitespace recognised by Python's regex class `\s`. -/
def isPyWs (c : Char) : Bool :=
  c = ' ' || c = '\t' || c = '\n' || c.toNat = 13 || c.toNat = 11 || c.toNat = 12

/-- One of the fixed `SECRET_PATTERNS`: a case-insensitive literal prefix
followed by a maximal non-empty run of capture characters (`[^\s]+`, or
`[^&\s]+` when `stopAmp` is set). -/
structure Pat where
  lit : List Char
  stopAmp : Bool

/-- Characters allowed in a pattern's capture run. -/
def patAllowed (pat : Pat) (c : Char) : Bool :=
  !(isPyWs c) && !(pat.stopAmp && c = '&')

/-- Case-insensitive character comparison (ASCII case folding, as in
`re.IGNORECASE` over the ASCII literals used here). -/
def ciEq (a b : Char) : Bool := a == b || a.toLower == b.toLower

/-- Does `lit` match a prefix of `t` case-insensitively? -/
def matchesCI : List Char → List Char → Bool
  | [], _ => true
  | _ :: _, [] => false
  | a :: as, b :: bs => ciEq a b && matchesCI as bs

/-- Fuel-bounded core of `subPat`; fuel `t.length` always suffices because
each match consumes at least one character. -/
def subPatF : Nat → Pat → List Char → List Char
  | 0, _, _ => []
  | fuel + 1, pat, t =>
    match t with
    | [] => []
    | c :: rest =>
      let run := ((c :: rest).drop pat.lit.length).takeWhile (patAllowed pat)
      if matchesCI pat.lit (c :: rest) ∧ run ≠ [] then
        (c :: rest).take pat.lit.length ++ stars ++
          subPatF fuel pat ((c :: rest).drop (pat.lit.length + run.length))
      else
        c :: subPatF fuel pat rest

/-- Model of `re.sub(pattern, r"\1***", text)` for one `SECRET_PATTERNS` entry:
leftmost non-overlapping matches; the matched literal (group 1) is kept with
its original case and the capture run is replaced by `***`. -/
def subPat (pat : Pat) (t : List Char) : List Char :=
  subPatF t.length pat t

/-- The fixed redaction pattern list, in source order. -/
def SECRET_PATTERNS : List Pat :=
  [⟨"Authorization: Bearer ".data, false⟩,
   ⟨"api_key=".data, true⟩,
   ⟨"token=".data, true⟩,
   ⟨"x-api-key: ".data, false⟩]

/-- The pattern phase of `redact_text`: apply the four substitutions in order. -/
def patternPass (t : List Char) : List Char :=
  SECRET_PATTERNS.foldl (fun acc pat => subPat pat acc) t

/-- Model of `redact_text(text, secret_values)`: pattern phase, then literal value
phase. -/
def redactChars (t : List Char) (secrets : List (List Char)) : List Char :=
  valuePass (patternPass t) secrets

/-- String-level wrapper for `redact_text`. -/
def redactText (t : String) (secrets : List String) : String :=
  ⟨redactChars t.data (secrets.map String.data)⟩

/-- Truncate to a 32-bit word. -/
def w32 (n : Nat) : Nat := n % 4294967296

/-- Rotation right by n bits on 32-bit words. -/
def rotr (n x : Nat) : Nat := w32 ((x >>> n) ||| (x <<< (32 - n)))

/-- SHA-256 round constants. -/
def shaK : List Nat :=
  [1116352408, 1899447441, 3049323471, 3921009573, 961987163, 1508970993,
   2453635748, 2870763221, 3624381080, 310598401, 607225278, 1426881987,
   1925078388, 2162078206, 2614888103, 3248222580, 3835390401, 4022224774,
   264347078, 604807628, 770255983, 1249150122, 1555081692, 1996064986,
   2554220882, 2821834349, 2952996808, 3210313671, 3336571891, 3584528711,
   113926993, 338241895, 666307205, 773529912, 1294757372, 1396182291,
   1695183700, 1986661051, 2177026350, 2456956037, 2730485921, 2820302411,
   3259730800, 3345764771, 3516065817, 3600352804, 4094571909, 275423344,
   430227734, 506948616, 659060556, 883997877, 958139571, 1322822218,
   1537002063, 1747873779, 1955562222, 2024104815, 2227730452, 2361852424,
   2428436474, 2756734187, 3204031479, 3329325298]

/-- SHA-256 working state: eight 32-bit words. -/
structure Hash8 where
  a : Nat
  b : Nat
  c : Nat
  d : Nat
  e : Nat
  f : Nat
  g : Nat
  hh : Nat
deriving Repr, DecidableEq

/-- SHA-256 initial state. -/
def shaH0 : Hash8 :=
  ⟨1779033703, 3144134277, 1013904242, 2773480762,
   1359893119, 2600822924, 528734635, 1541459225⟩

/-- Zero-pad and append the bit-length, producing a byte string whose length
is a multiple of 64. -/
def padMessage (msg : List Nat) : List Nat :=
  let L := msg.length
  let z := (119 - (L % 64)) % 64
  let bits := 8 * L
  msg ++ 0x80 :: List.replicate z 0 ++
    [bits >>> 56 % 256, bits >>> 48 % 256, bits >>> 40 % 256, bits >>> 32 % 256,
     bits >>> 24 % 256, bits >>> 16 % 256, bits >>> 8 % 256, bits % 256]

/-- Big-endian 4-byte groups to 32-bit words. -/
def bytesToWords : List Nat → List Nat
  | a :: b :: c :: d :: rest => (((a * 256 + b) * 256 + c) * 256 + d) :: bytesToWords rest
  | _ => []

/-- Split a word list into 16-word blocks (the padded message is always a
whole number of blocks). -/
def toBlocks : List Nat → List (List Nat)
  | w0 :: w1 :: w2 :: w3 :: w4 :: w5 :: w6 :: w7 ::
    w8 :: w9 :: w10 :: w11 :: w12 :: w13 :: w14 :: w15 :: rest =>
      [w0, w1, w2, w3, w4, w5, w6, w7, w8, w9, w10, w11, w12, w13, w14, w15] ::
        toBlocks rest
  | [] => []
  | ws => [ws]

def ssig0 (x : Nat) : Nat := w32 (rotr 7 x ^^^ rotr 18 x ^^^ (x >>> 3))

def ssig1 (x : Nat) : Nat := w32 (rotr 17 x ^^^ rotr 19 x ^^^ (x >>> 10))

/-- Extend a 16-word block to the 64-word message schedule. -/
def buildSchedule (block : List Nat) : List Nat :=
  (List.range 48).foldl
    (fun ws _ =>
      let n := ws.length
      ws ++ [w32 (ssig1 (ws.getD (n - 2) 0) + ws.getD (n - 7) 0 +
                  ssig0 (ws.getD (n - 15) 0) + ws.getD (n - 16) 0)])
    block

/-- One SHA-256 compression round; `x` is `K[i] + W[i]` mod 2^32. -/
def shaRound (st : Hash8) (x : Nat) : Hash8 :=
  let s1 := w32 (rotr 6 st.e ^^^ rotr 11 st.e ^^^ rotr 25 st.e)
  let ch := w32 ((st.e &&& st.f) ^^^ ((st.e ^^^ 4294967295) &&& st.g))
  let t1 := w32 (st.hh + s1 + ch + x)
  let s0 := w32 (rotr 2 st.a ^^^ rotr 13 st.a ^^^ rotr 22 st.a)
  let mj := w32 ((st.a &&& st.b) ^^^ (st.a &&& st.c) ^^^ (st.b &&& st.c))
  let t2 := w32 (s0 + mj)
  ⟨w32 (t1 + t2), st.a, st.b, st.c, w32 (st.d + t1), st.e, st.f, st.g⟩

/-- Compress one 512-bit block into the state. -/
def compressBlock (st : Hash8) (block : List Nat) : Hash8 :=
  let ws := buildSchedule block
  let kw := List.zipWith (fun k w => w32 (k + w)) shaK ws
  let fin := kw.foldl shaRound st
  ⟨w32 (st.a + fin.a), w32 (st.b + fin.b), w32 (st.c + fin.c), w32 (st.d + fin.d),
   w32 (st.e + fin.e), w32 (st.f + fin.f), w32 (st.g + fin.g), w32 (st.hh + fin.hh)⟩

/-- SHA-256 over a byte string, as the final state. -/
def sha256State (msg : List Nat) : Hash8 :=
  (toBlocks (bytesToWords (padMessage msg))).foldl compressBlock shaH0

/-- Lowercase hex digit. -/
def hexDigit (n : Nat) : Char :=
  if n < 10 then Char.ofNat (48 + n) else Char.ofNat (87 + n % 16)

/-- A 32-bit word as 8 lowercase hex digits. -/
def wordHex (w : Nat) : List Char :=
  [hexDigit (w >>> 28 % 16), hexDigit (w >>> 24 % 16), hexDigit (w >>> 20 % 16),
   hexDigit (w >>> 16 % 16), hexDigit (w >>> 12 % 16), hexDigit (w >>> 8 % 16),
   hexDigit (w >>> 4 % 16), hexDigit (w % 16)]

/-- A 32-bit word as 4 big-endian bytes. -/
def wordBytes (w : Nat) : List Nat :=
  [w >>> 24 % 256, w >>> 16 % 256, w >>> 8 % 256, w % 256]

/-- Model of `hashlib.sha256(msg).hexdigest()`. -/
def sha256Hex (msg : List Nat) : String :=
  let st := sha256State msg
  ⟨wordHex st.a ++ wordHex st.b ++ wordHex st.c ++ wordHex st.d ++
   wordHex st.e ++ wordHex st.f ++ wordHex st.g ++ wordHex st.hh⟩

/-- Model of `hashlib.sha256(msg).digest()`. -/
def sha256Bytes (msg : List Nat) : List Nat :=
  let st := sha256State msg
  wordBytes st.a ++ wordBytes st.b ++ wordBytes st.c ++ wordBytes st.d ++
  wordBytes st.e ++ wordBytes st.f ++ wordBytes st.g ++ wordBytes st.hh

/-- UTF-8 encoding of one code point. -/
def utf8Char (c : Char) : List Nat :=
  let n := c.toNat
  if n < 0x80 then [n]
  else if n < 0x800 then [0xc0 ||| (n >>> 6), 0x80 ||| (n &&& 63)]
  else if n < 0x10000 then
    [0xe0 ||| (n >>> 12), 0x80 ||| ((n >>> 6) &&& 63), 0x80 ||| (n &&& 63)]
  else
    [0xf0 ||| (n >>> 18), 0x80 ||| ((n >>> 12) &&& 63),
     0x80 ||| ((n >>> 6) &&& 63), 0x80 ||| (n &&& 63)]

/-- Model of `s.encode("utf-8")` as a byte list. -/
def utf8Bytes (s : String) : List Nat :=
  s.data.foldr (fun c acc => utf8Char c ++ acc) []

/-- Model of `hmac.new(key, msg, hashlib.sha256).hexdigest()`. -/
def hmacSha256Hex (key msg : List Nat) : String :=
  let k0 := if key.length > 64 then sha256Bytes key else key
  let k1 := k0 ++ List.replicate (64 - k0.length) 0
  let ipad := k1.map (fun b => b ^^^ 0x36)
  let opad := k1.map (fun b => b ^^^ 0x5c)
  sha256Hex (opad ++ sha256Bytes (ipad ++ msg))

mutual

/-- JSON values as the Python code manipulates them: objects keep key
insertion order, numbers are integers (the only numbers these payloads use).
Arrays and objects carry their elements through the mutual types `JsonList`
and `JsonFields` so that every recursion over JSON is structural. -/
inductive Json where
  | null
  | bool (b : Bool)
  | num (n : Int)
  | str (s : String)
  | arr (elems : JsonList)
  | obj (fields : JsonFields)

/-- A JSON array's elements. -/
inductive JsonList where
  | nil
  | cons (head : Json) (tail : JsonList)

/-- A JSON object's fields, in insertion order. -/
inductive JsonFields where
  | nil
  | cons (key : String) (val : Json) (tail : JsonFields)

end

instance : Inhabited Json := ⟨Json.null⟩

/-- Build a JSON array from a Lean list. -/
def JsonList.ofList : List Json → JsonList
  | [] => .nil
  | x :: rest => .cons x (JsonList.ofList rest)

/-- Build a JSON object from a Lean association list. -/
def JsonFields.ofList : List (String × Json) → JsonFields
  | [] => .nil
  | (k, v) :: rest => .cons k v (JsonFields.ofList rest)

/-- Convenience constructor mirroring a Python dict literal. -/
def jobj (fields : List (String × Json)) : Json := .obj (JsonFields.ofList fields)

/-- Convenience constructor mirroring a Python list literal. -/
def jarr (elems : List Json) : Json := .arr (JsonList.ofList elems)

def JsonList.isNil : JsonList → Bool
  | .nil => true
  | .cons _ _ => false

def JsonFields.isNil : JsonFields → Bool
  | .nil => true
  | .cons _ _ _ => false

/-- First value bound to `k`, as Python dict lookup. -/
def JsonFields.findVal : JsonFields → String → Option Json
  | .nil, _ => none
  | .cons key v rest, k => if key = k then some v else JsonFields.findVal rest k

/-- JSON string escaping as `json.dumps` performs it: `"`, `\`, the named
control escapes, `\uXXXX` for other control characters, and (when
`ascii` is set, i.e. the default `ensure_ascii=True`) `\uXXXX` (with
surrogate pairs) for non-ASCII characters. -/
def escapeChar (ascii : Bool) (c : Char) : List Char :=
  let n := c.toNat
  if c = '"' then ['\\', '"']
  else if c = '\\' then ['\\', '\\']
  else if c = '\n' then ['\\', 'n']
  else if c = '\t' then ['\\', 't']
  else if n = 13 then ['\\', 'r']
  else if n = 8 then ['\\', 'b']
  else if n = 12 then ['\\', 'f']
  else if n < 32 then
    ['\\', 'u', '0', '0', hexDigit (n >>> 4 % 16), hexDigit (n % 16)]
  else if ascii && n ≥ 128 then
    if n < 0x10000 then
      ['\\', 'u', hexDigit (n >>> 12 % 16), hexDigit (n >>> 8 % 16),
       hexDigit (n >>> 4 % 16), hexDigit (n % 16)]
    else
      let m := n - 0x10000
      let hi := 0xd800 + (m >>> 10)
      let lo := 0xdc00 + (m &&& 0x3ff)
      ['\\', 'u', hexDigit (hi >>> 12 % 16), hexDigit (hi >>> 8 % 16),
       hexDigit (hi >>> 4 % 16), hexDigit (hi % 16),
       '\\', 'u', hexDigit (lo >>> 12 % 16), hexDigit (lo >>> 8 % 16),
       hexDigit (lo >>> 4 % 16), hexDigit (lo % 16)]
  else [c]

/-- A JSON string literal with quotes. -/
def quoteStr (ascii : Bool) (s : String) : List Char :=
  '"' :: s.data.foldr (fun c acc => escapeChar ascii c ++ acc) ['"']

mutual

/-- Model of `json.dumps(value)` with the default separators `", "` and `": "`;
`ascii` selects `ensure_ascii`. Object keys are emitted in insertion
order (no `sort_keys`). -/
def jdump (ascii : Bool) : Json → List Char
  | .null => "null".data
  | .bool true => "true".data
  | .bool false => "false".data
  | .num n => (toString n).data
  | .str s => quoteStr ascii s
  | .arr xs => '[' :: (jdumpArr ascii xs ++ [']'])
  | .obj fs => '{' :: (jdumpObj ascii fs ++ ['}'])

def jdumpArr (ascii : Bool) : JsonList → List Char
  | .nil => []
  | .cons x .nil => jdump ascii x
  | .cons x (.cons y rest) => jdump ascii x ++ ',' :: ' ' :: jdumpArr ascii (.cons y rest)

def jdumpObj (ascii : Bool) : JsonFields → List Char
  | .nil => []
  | .cons k v .nil => quoteStr ascii k ++ ':' :: ' ' :: jdump ascii v
  | .cons k v (.cons k2 v2 rest) =>
      quoteStr ascii k ++ ':' :: ' ' :: jdump ascii v ++
        ',' :: ' ' :: jdumpObj ascii (.cons k2 v2 rest)

end

/-- Model of `json_dump(value)` from `sqlite_store.py`: `json.dumps(value, ensure_ascii=False)`. -/
def json_dump (j : Json) : String := ⟨jdump false j⟩

/-- Model of `ConnectorService.hash_payload`: SHA-256 hex digest of the UTF-8 bytes of
`json_dump(payload)`. -/
def hash_payload (j : Json) : String := sha256Hex (utf8Bytes (json_dump j))

/-- Model of `WorkflowNotifier._hmac_signature`: empty string when no webhook secret is
configured, otherwise the hex HMAC-SHA256 of the payload keyed by the secret. -/
def hmac_signature (webhookSecret payload : String) : String :=
  if webhookSecret = "" then ""
  else hmacSha256Hex (utf8Bytes webhookSecret) (utf8Bytes payload)

/-- The headers dict `notify_completion` builds: the signature header is
added exactly when `_hmac_signature` returned a non-empty (truthy) string. -/
def notifyHeaders (webhookSecret body : String) : List (String × String) :=
  let signature := hmac_signature webhookSecret body
  if signature ≠ "" then
    [("Content-Type", "application/json"), ("X-Dara-Signature", signature)]
  else
    [("Content-Type", "application/json")]

/-- The run columns `notify_completion` reads. -/
structure NotifierRunInfo where
  status : String
deriving Repr, BEq, DecidableEq

/-- An artifact row as collected for the webhook payload
(`SELECT path, type, created_at`). -/
structure NotifierArtifact where
  path : String
  type : String
  created_at : String
deriving Repr, BEq, DecidableEq

/-- Notifier environment configuration. -/
structure NotifierCfg where
  webhookUrl : String
  webhookSecret : String
  notifyOnComplete : Bool
deriving Repr, BEq, DecidableEq

/-- The outbound `requests.post` call `notify_completion` makes. -/
structure WebhookRequest where
  url : String
  body : String
  headers : List (String × String)
deriving Repr, BEq, DecidableEq

/-- Model of `WorkflowNotifier.notify_completion`, with the externally-determined pieces
passed in: `run` is the row looked up by run id (`none` models a missing row),
`tts` is the outcome of `_generate_tts` (`Except.error` models the HTTP call
raising), `activePreset` and `finishedAt` come from the preset registry and
the clock. Returns the POST it performs, `none` when notification is disabled,
or an error when the Python code raises. -/
def notify_completion (cfg : NotifierCfg) (runId : String)
    (run : Option NotifierRunInfo) (artifacts : List NotifierArtifact)
    (activePreset : String) (finishedAt : String)
    (tts : Except String (Option String)) : Except String (Option WebhookRequest) :=
  if ¬ cfg.notifyOnComplete ∨ cfg.webhookUrl = "" then .ok none
  else
    match run with
    | none => .error "Run not found"
    | some runInfo =>
      match tts with
      | .error e => .error e
      | .ok audio =>
        let message := "Run " ++ runId ++ " completed"
        let payload : Json := jobj
          [("run_id", .str runId),
           ("status", .str runInfo.status),
           ("summary", .str message),
           ("artifacts", jarr (artifacts.map (fun a => jobj
              [("path", .str a.path), ("type", .str a.type),
               ("created_at", .str a.created_at)]))),
           ("model_preset", .str activePreset),
           ("tokens_used", .num 0),
           ("finished_at", .str finishedAt),
           ("tts_audio", match audio with
             | some audioB64 => .str audioB64
             | none => .null)]
        let body : String := ⟨jdump true payload⟩
        .ok (some { url := cfg.webhookUrl, body := body,
                    headers := notifyHeaders cfg.webhookSecret body })

/-- Model of `dict.get(key)` on a JSON object. -/
def Json.get (j : Json) (k : String) : Option Json :=
  match j with
  | .obj fields => fields.findVal k
  | _ => none

/-- Model of `step.get(key, default)` where the engine uses the value as a string.
The seeded workflow schemas only store strings under these keys. -/
def getStrD (j : Json) (k : String) (d : String) : String :=
  match j.get k with
  | some (.str s) => s
  | _ => d

/-- Python truthiness of a JSON value (`bool(x)`). -/
def jsonTruthy : Json → Bool
  | .null => false
  | .bool b => b
  | .num n => n != 0
  | .str s => s ≠ ""
  | .arr xs => ¬ xs.isNil
  | .obj fs => ¬ fs.isNil

/-- A row of the `runs` table. The `input` column stores
`json_dump(input_payload)` (or SQL `NULL`); the model keeps the parsed value,
relying on `json.loads(json.dumps(x)) = x`. -/
structure RunRow where
  id : String
  workflow_id : String
  status : String
  current_step : Nat
  input : Option Json
  created_at : String
  updated_at : String

/-- A row of the `approvals` table. -/
structure ApprovalRow where
  id : String
  run_id : String
  action_type : String
  payload_hash : String
  status : String
  decided_by : Option String
  decided_at : Option String
deriving Repr, BEq

/-- A row of the `artifacts` table. -/
structure ArtifactRow where
  id : String
  run_id : String
  path : String
  type : String
  created_at : String
deriving Repr, BEq

/-- A workflow schema as the engine consumes it: `workflow.get("name")` and
`workflow.get("steps", [])`. -/
structure Workflow where
  name : String
  steps : List Json

/-- The persistent and filesystem state the engine manipulates.
`vaultSecrets` is `none` when no `MASTER_KEY` is configured; `files` maps an
artifact path to the text written at it; `notifierCalls` records each
invocation of `WorkflowNotifier.notify_completion`; `fresh`/`clock` supply
`uuid4()` values and `datetime.now()` timestamps deterministically. -/
structure EngineState where
  workflows : List (String × Workflow)
  runs : List RunRow
  approvals : List ApprovalRow
  artifacts : List ArtifactRow
  files : List (String × String)
  vaultSecrets : Option (List String)
  notifierCalls : List String
  fresh : Nat
  clock : Nat

/-- External collaborators of one engine invocation: the artifacts root
directory and the connector's tool-invocation endpoint (an `Except.error`
models `ConnectorService.invoke_tool` raising). -/
structure Env where
  artifactsDir : String
  toolResult : String → Json → String → Except String Json
  shellOk : String → Bool
  shellOutput : String → String

/-- Allocate a `uuid4().hex`. -/
def genId (s : EngineState) : String × EngineState :=
  ("uuid" ++ toString s.fresh, { s with fresh := s.fresh + 1 })

/-- Read `datetime.now(timezone.utc).isoformat()`. -/
def nowTs (s : EngineState) : String × EngineState :=
  ("ts" ++ toString s.clock, { s with clock := s.clock + 1 })

/-- Lookup in the `workflows` table by primary key. -/
def wfLookupIn (wfs : List (String × Workflow)) (workflowId : String) : Option Workflow :=
  (wfs.find? (fun w => w.1 = workflowId)).map (fun w => w.2)

/-- Model of `SELECT schema FROM workflows WHERE id = ?`. -/
def wfLookup (s : EngineState) (workflowId : String) : Option Workflow :=
  wfLookupIn s.workflows workflowId

/-- Model of `SELECT workflow_id, current_step, status FROM runs WHERE id = ?`. -/
def getRunState (s : EngineState) (runId : String) : Option (String × Nat × String) :=
  (s.runs.find? (fun r => r.id = runId)).map (fun r => (r.workflow_id, r.current_step, r.status))

/-- Model of `WorkflowEngine._load_run_input`: the stored input, with Python's
`json_load(...) or {}` falsy fallback. -/
def loadRunInput (s : EngineState) (runId : String) : Json :=
  match s.runs.find? (fun r => r.id = runId) with
  | some r =>
    match r.input with
    | some j => if jsonTruthy j then j else jobj []
    | none => jobj []
  | none => jobj []

/-- The per-row effect of the `UPDATE runs ... WHERE id = ?` statement. -/
def updRunRow (runId status : String) (currentStep : Nat) (ts : String) (r : RunRow) : RunRow :=
  if r.id = runId then
    { r with status := status, current_step := currentStep, updated_at := ts }
  else r

/-- Model of `WorkflowEngine._update_run`: `UPDATE runs SET status, current_step,
updated_at WHERE id = ?`. -/
def updateRun (s : EngineState) (runId status : String) (currentStep : Nat) : EngineState :=
  let (ts, s1) := nowTs s
  { s1 with runs := s1.runs.map (updRunRow runId status currentStep ts) }

/-- Model of `WorkflowEngine._create_approval`: insert a pending approval row. -/
def createApproval (s : EngineState) (runId actionType payloadHash : String) :
    ApprovalRow × EngineState :=
  let (aid, s1) := genId s
  let row : ApprovalRow :=
    { id := aid, run_id := runId, action_type := actionType,
      payload_hash := payloadHash, status := "pending",
      decided_by := none, decided_at := none }
  (row, { s1 with approvals := s1.approvals ++ [row] })

/-- SQLite BINARY collation on TEXT: lexicographic comparison of the UTF-8
encodings, which for these strings coincides with code-point order. -/
def strLtB : List Char → List Char → Bool
  | [], [] => false
  | [], _ :: _ => true
  | _ :: _, [] => false
  | a :: as, b :: bs =>
    if a.toNat < b.toNat then true
    else if b.toNat < a.toNat then false
    else strLtB as bs

/-- SQLite `ORDER BY decided_at DESC`: `NULL` sorts below every value, so
undecided rows come last; ties keep the earlier row (the concrete order
SQLite uses for equal keys is unspecified). -/
def decidedLt (a b : Option String) : Bool :=
  match a, b with
  | none, none => false
  | none, some _ => true
  | some _, none => false
  | some x, some y => strLtB x.data y.data

/-- The row `LIMIT 1` returns under `ORDER BY decided_at DESC`. -/
def selectTop (rows : List ApprovalRow) : Option ApprovalRow :=
  rows.foldl
    (fun acc r =>
      match acc with
      | none => some r
      | some m => if decidedLt m.decided_at r.decided_at then some r else some m)
    none

/-- Model of `WorkflowEngine._has_approved`: look at the single row for
`(run_id, payload_hash)` with the greatest `decided_at` and test whether its
status is `approved`. -/
def hasApproved (approvals : List ApprovalRow) (runId payloadHash : String) : Bool :=
  match selectTop (approvals.filter
      (fun a => a.run_id = runId ∧ a.payload_hash = payloadHash)) with
  | some row => row.status = "approved"
  | none => false

/-- Model of `m[k] = v` for the artifact file map (`Path.write_text` overwrites). -/
def assocSet (m : List (String × String)) (k v : String) : List (String × String) :=
  if m.any (fun e => e.1 = k) then
    m.map (fun e => if e.1 = k then (k, v) else e)
  else
    m ++ [(k, v)]

/-- Read a file back. -/
def assocGet (m : List (String × String)) (k : String) : Option String :=
  (m.find? (fun e => e.1 = k)).map (fun e => e.2)

/-- Model of `WorkflowEngine._record_artifact`. -/
def recordArtifact (s : EngineState) (runId path artifactType : String) : EngineState :=
  let (aid, s1) := genId s
  let (ts, s2) := nowTs s1
  { s2 with
    artifacts := s2.artifacts ++
      [{ id := aid, run_id := runId, path := path, type := artifactType, created_at := ts }] }

/-- The artifact path `<artifacts_root>/runs/<run_id>/<filename>`. -/
def artifactPath (env : Env) (runId filename : String) : String :=
  env.artifactsDir ++ "/runs/" ++ runId ++ "/" ++ filename

/-- Model of `WorkflowEngine._write_artifact`: redact against the vault's current
plaintext values (empty when no vault is configured), write the file, and
record the artifact row. -/
def writeArtifact (env : Env) (s : EngineState) (runId filename content : String) :
    EngineState :=
  let secrets := s.vaultSecrets.getD []
  let redacted := redactText content secrets
  let path := artifactPath env runId filename
  let s1 := { s with files := assocSet s.files path redacted }
  recordArtifact s1 runId path "text"

/-- Model of `WorkflowEngine._run_shell_command`. -/
def runShellCommand (env : Env) (command : String) : Json :=
  if command = "" then
    jobj [("status", .str "skipped"), ("output", .str "no command provided")]
  else
    jobj [("status", .str (if env.shellOk command then "ok" else "error")),
          ("output", .str (env.shellOutput command)),
          ("command", .str command)]

/-- The `for index in range(current_step, len(steps))` loop of
`WorkflowEngine._execute_run`, plus the completion epilogue. `index` is the
loop counter and `remaining` the suffix `steps.drop index` still to visit
(`executeRun` establishes this). An `Except.error` result models an exception
propagating out of `_execute_run`; state changes made before the raise are
kept (each SQL statement commits separately). -/
def execSteps (env : Env) (s : EngineState) (runId : String) (wfName : String)
    (payload : Json) (steps : List Json) (index : Nat) :
    List Json → EngineState × Except String Unit
  | [] =>
    let s1 := updateRun s runId "completed" steps.length
    ({ s1 with notifierCalls := s1.notifierCalls ++ [runId] }, .ok ())
  | step :: remaining =>
    let typ := getStrD step "type" ""
    if typ = "agent_step" then
      let content := "Draft for workflow " ++ wfName ++ ".\nInput: " ++ json_dump payload
      let s1 := writeArtifact env s runId (getStrD step "artifact" "draft.txt") content
      let s2 := updateRun s1 runId "running" (index + 1)
      execSteps env s2 runId wfName payload steps (index + 1) remaining
    else if typ = "approval_gate" then
      let actionType := getStrD step "action_type" "approval"
      let payloadHash := hash_payload step
      if ¬ hasApproved s.approvals runId payloadHash then
        let (_, s1) := createApproval s runId actionType payloadHash
        (updateRun s1 runId "waiting_approval" index, .ok ())
      else
        let s1 := updateRun s runId "running" (index + 1)
        execSteps env s1 runId wfName payload steps (index + 1) remaining
    else if typ = "tool_step" then
      let writeFlag := jsonTruthy ((step.get "write").getD .null)
      let payloadHash := hash_payload step
      if writeFlag ∧ ¬ hasApproved s.approvals runId payloadHash then
        let (_, s1) := createApproval s runId (getStrD step "tool_name" "tool") payloadHash
        (updateRun s1 runId "waiting_approval" index, .ok ())
      else
        let result : Except String Json :=
          if getStrD step "tool_name" "" = "shell_command" then
            .ok (runShellCommand env (getStrD step "command" ""))
          else
            env.toolResult (getStrD step "tool_name" "tool")
              (jobj [("input", payload)]) runId
        match result with
        | .error e => (s, .error e)
        | .ok r =>
          let s1 := writeArtifact env s runId (getStrD step "artifact" "tool_output.json")
            (json_dump r)
          let s2 := updateRun s1 runId "running" (index + 1)
          execSteps env s2 runId wfName payload steps (index + 1) remaining
    else if typ = "http_step" then
      let s1 := writeArtifact env s runId (getStrD step "artifact" "http_response.txt")
        "HTTP step executed"
      let s2 := updateRun s1 runId "running" (index + 1)
      execSteps env s2 runId wfName payload steps (index + 1) remaining
    else
      execSteps env s runId wfName payload steps (index + 1) remaining

/-- Model of `WorkflowEngine._execute_run`. -/
def executeRun (env : Env) (s : EngineState) (runId : String) :
    EngineState × Except String Unit :=
  match getRunState s runId with
  | none => (s, .error "Run not found")
  | some (workflowId, currentStep, status) =>
    if status ≠ "running" ∧ status ≠ "waiting_approval" then (s, .ok ())
    else
      match wfLookup s workflowId with
      | none => (s, .error "Workflow not found")
      | some wf =>
        let payload := loadRunInput s runId
        execSteps env s runId wf.name payload wf.steps currentStep (wf.steps.drop currentStep)

/-- Model of `WorkflowEngine.create_run`: insert the run row with `status = running`,
`current_step = 0`, then immediately run the interpreter. The run row stays
inserted even when the interpreter raises. -/
def createRun (env : Env) (s : EngineState) (workflowId : String) (inputPayload : Json) :
    EngineState × Except String RunRow :=
  let (runId, s1) := genId s
  let (ts, s2) := nowTs s1
  let run : RunRow :=
    { id := runId, workflow_id := workflowId, status := "running",
      current_step := 0, input := some inputPayload, created_at := ts, updated_at := ts }
  let s3 := { s2 with runs := s2.runs ++ [run] }
  let out := executeRun env s3 runId
  (out.1, match out.2 with
    | .ok _ => .ok run
    | .error e => .error e)

/-- Model of `WorkflowEngine.approve`: update the named approval row (whatever run it
belongs to), then either resume the interpreter at the run's current step or
mark the run rejected with `current_step = 0`. -/
def approve (env : Env) (s : EngineState) (runId approvalId decision : String)
    (decidedBy : Option String) : EngineState × Except String Unit :=
  let (ts, s1) := nowTs s
  let s2 := { s1 with
    approvals := s1.approvals.map (fun a =>
      if a.id = approvalId then
        { a with status := decision, decided_by := decidedBy, decided_at := some ts }
      else a) }
  if decision = "approved" then
    match getRunState s2 runId with
    | none => (s2, .error "Run not found")
    | some (_, currentStep, _) =>
      let s3 := updateRun s2 runId "running" currentStep
      let out := executeRun env s3 runId
      (out.1, match out.2 with
        | .ok _ => .ok ()
        | .error e => .error e)
  else
    let s3 := updateRun s2 runId "rejected" 0
    (s3, match getRunState s3 runId with
      | none => .error "Run not found"
      | some _ => .ok ())

/-- The status of the run a `SELECT ... WHERE id = ?` returns. -/
def runStatus (s : EngineState) (runId : String) : Option String :=
  (s.runs.find? (fun r => r.id = runId)).map (fun r => r.status)

/-- The spec's terminal run statuses. -/
def isTerminal (st : String) : Prop :=
  st = "completed" ∨ st = "rejected" ∨ st = "failed"

/-- A trivial environment for concrete scenarios. -/
def env0 : Env :=
  { artifactsDir := "/data/artifacts"
    toolResult := fun _ _ _ => .ok Json.null
    shellOk := fun _ => true
    shellOutput := fun _ => "" }

/-- One completed run of an empty workflow, with one stale pending approval. -/
def cexC1 : EngineState :=
  { workflows := [("w0", { name := "W", steps := [] })]
    runs := [{ id := "r1", workflow_id := "w0", status := "completed",
               current_step := 0, input := none, created_at := "t0", updated_at := "t0" }]
    approvals := [{ id := "a1", run_id := "r1", action_type := "approval",
                    payload_hash := "h", status := "pending",
                    decided_by := none, decided_at := none }]
    artifacts := [], files := [], vaultSecrets := none
    notifierCalls := ["r1"], fresh := 0, clock := 0 }

/-- The gate step of the C6 scenario workflow. -/
def gateC6 : Json := jobj [("type", .str "approval_gate"), ("action_type", .str "ok")]

/-- A run suspended at step 1, as the secretary workflow leaves it. -/
def cexC6 : EngineState :=
  { workflows := [("w0", { name := "W", steps := [gateC6] })]
    runs := [{ id := "r1", workflow_id := "w0", status := "waiting_approval",
               current_step := 1, input := none, created_at := "t0", updated_at := "t0" }]
    approvals := [{ id := "a1", run_id := "r1", action_type := "ok",
                    payload_hash := "h", status := "pending",
                    decided_by := none, decided_at := none }]
    artifacts := [], files := [], vaultSecrets := none
    notifierCalls := [], fresh := 0, clock := 0 }

/-- The run row `create_run` inserts before invoking the interpreter. -/
def newRunRow (s : EngineState) (workflowId : String) (input : Json) : RunRow :=
  { id := "uuid" ++ toString s.fresh, workflow_id := workflowId,
    status := "running", current_step := 0, input := some input,
    created_at := "ts" ++ toString s.clock,
    updated_at := "ts" ++ toString s.clock }

/-- The state right after `create_run`'s INSERT commits. -/
def insertedState (s : EngineState) (workflowId : String) (input : Json) : EngineState :=
  { s with runs := s.runs ++ [newRunRow s workflowId input],
           fresh := s.fresh + 1, clock := s.clock + 1 }

/-- An empty store: no workflows, no runs. -/
def cexC10 : EngineState :=
  { workflows := [], runs := [], approvals := [], artifacts := [], files := []
    vaultSecrets := none, notifierCalls := [], fresh := 0, clock := 0 }

/-- Invariant I-R2 over explicit table contents: every `waiting_approval` run
has a pending approval row whose `payload_hash` is the fingerprint of the step
at its `current_step`. -/
def IR2Core (wfs : List (String × Workflow)) (runs : List RunRow)
    (approvals : List ApprovalRow) : Prop :=
  ∀ r ∈ runs, r.status = "waiting_approval" →
    ∃ wf step, wfLookupIn wfs r.workflow_id = some wf ∧
      wf.steps[r.current_step]? = some step ∧
      ∃ a ∈ approvals, a.run_id = r.id ∧ a.status = "pending" ∧
        a.payload_hash = hash_payload step

/-- Invariant I-R2 of an engine state. -/
def IR2 (s : EngineState) : Prop := IR2Core s.workflows s.runs s.approvals

/-- The `runs` table has no duplicate primary keys. -/
def runIdsNodup (s : EngineState) : Prop := (s.runs.map (fun r => r.id)).Nodup

/-- The gate step of the C5 scenario. -/
def gateC5 : Json := jobj [("type", .str "approval_gate"), ("action_type", .str "ok")]

/-- Two runs: `A` running an empty workflow, `B` suspended at its gate with
one pending approval whose hash fingerprints the gate. -/
def cexC5 : EngineState :=
  { workflows := [("wA", { name := "A", steps := [] }),
                  ("wB", { name := "B", steps := [gateC5] })]
    runs := [{ id := "A", workflow_id := "wA", status := "running",
               current_step := 0, input := none, created_at := "t0", updated_at := "t0" },
             { id := "B", workflow_id := "wB", status := "waiting_approval",
               current_step := 0, input := none, created_at := "t0", updated_at := "t0" }]
    approvals := [{ id := "pB", run_id := "B", action_type := "ok",
                    payload_hash := hash_payload gateC5, status := "pending",
                    decided_by := none, decided_at := none }]
    artifacts := [], files := [], vaultSecrets := none
    notifierCalls := [], fresh := 0, clock := 0 }

/-- A vault containing a secret consisting only of asterisks. -/
def cexC2 : EngineState :=
  { workflows := [], runs := [], approvals := [], artifacts := [], files := []
    vaultSecrets := some ["**"], notifierCalls := [], fresh := 0, clock := 0 }

/-- Witness for C2 at a concrete state. -/
def cexC2b : EngineState :=
  { workflows := [], runs := [], approvals := [], artifacts := [], files := []
    vaultSecrets := some ["abc"], notifierCalls := [], fresh := 0, clock := 0 }

/-- Header lookup as the HTTP client sees it. -/
def headerGet (headers : List (String × String)) (k : String) : Option String :=
  (headers.find? (fun kv => kv.1 = k)).map (fun kv => kv.2)

/-- The concrete POST the notifier builds in the C8 witness scenario. -/
def reqC8 : WebhookRequest :=
  { url := "http://h/w"
    body := "\x7b\"run_id\": \"run1\", \"status\": \"completed\", \"summary\": \"Run run1 completed\", \"artifacts\": [], \"model_preset\": \"main\", \"tokens_used\": 0, \"finished_at\": \"t0\", \"tts_audio\": null\x7d"
    headers := [("Content-Type", "application/json"),
                ("X-Dara-Signature",
                 "81263a9d029f5eae3fc849684128f4e141e8d4ae337fae4571a7cce3f9d78ea6")] }

/-- The fuel does not matter once it covers the text length. -/
theorem replaceAllF_fuel :
    ∀ (f1 f2 : Nat) (t p : List Char), t.length ≤ f1 → t.length ≤ f2 →
      replaceAllF f1 t p = replaceAllF f2 t p := by
  intro f1
  induction f1 with
  | zero =>
    intro f2 t p h1 _
    have ht : t = [] := List.eq_nil_of_length_eq_zero (Nat.le_zero.mp h1)
    subst ht
    cases f2 with
    | zero => rfl
    | succ f2 => rfl
  | succ f1 ih =>
    intro f2 t p h1 h2
    cases t with
    | nil =>
      cases f2 with
      | zero => rfl
      | succ f2 => rfl
    | cons c rest =>
      cases f2 with
      | zero => simp at h2
      | succ f2 =>
        show (if p ≠ [] ∧ p <+: (c :: rest) then
                stars ++ replaceAllF f1 ((c :: rest).drop p.length) p
              else c :: replaceAllF f1 rest p) =
             (if p ≠ [] ∧ p <+: (c :: rest) then
                stars ++ replaceAllF f2 ((c :: rest).drop p.length) p
              else c :: replaceAllF f2 rest p)
        by_cases hm : p ≠ [] ∧ p <+: (c :: rest)
        · rw [if_pos hm, if_pos hm]
          have hp : p.length ≥ 1 := by
            cases p with
            | nil => exact absurd rfl hm.1
            | cons x xs => simp
          have hlen : ((c :: rest).drop p.length).length ≤ f1 := by
            simp only [List.length_drop, List.length_cons]
            simp only [List.length_cons] at h1
            omega
          have hlen2 : ((c :: rest).drop p.length).length ≤ f2 := by
            simp only [List.length_drop, List.length_cons]
            simp only [List.length_cons] at h2
            omega
          rw [ih f2 _ p hlen hlen2]
        · rw [if_neg hm, if_neg hm]
          have hlen : rest.length ≤ f1 := by
            simp only [List.length_cons] at h1; omega
          have hlen2 : rest.length ≤ f2 := by
            simp only [List.length_cons] at h2; omega
          rw [ih f2 rest p hlen hlen2]

theorem replaceAll_nil (p : List Char) : replaceAll [] p = [] := rfl

theorem replaceAll_cons (c : Char) (rest p : List Char) :
    replaceAll (c :: rest) p =
      if p ≠ [] ∧ p <+: (c :: rest) then
        stars ++ replaceAll ((c :: rest).drop p.length) p
      else
        c :: replaceAll rest p := by
  show (if p ≠ [] ∧ p <+: (c :: rest) then
          stars ++ replaceAllF rest.length ((c :: rest).drop p.length) p
        else c :: replaceAllF rest.length rest p) = _
  by_cases hm : p ≠ [] ∧ p <+: (c :: rest)
  · rw [if_pos hm, if_pos hm]
    have hp : p.length ≥ 1 := by
      cases p with
      | nil => exact absurd rfl hm.1
      | cons x xs => simp
    rw [replaceAllF_fuel rest.length ((c :: rest).drop p.length).length _ p ?_ ?_]
    · rfl
    · simp only [List.length_drop, List.length_cons]; omega
    · rfl
  · rw [if_neg hm, if_neg hm]
    rfl

/-- A star-free prefix of `'*' :: xs` is empty. -/
theorem prefix_star_cons {q xs : List Char} (hq : '*' ∉ q) (h : q <+: '*' :: xs) :
    q = [] := by
  cases q with
  | nil => rfl
  | cons a as =>
    rw [List.cons_prefix_cons] at h
    obtain ⟨h1, _⟩ := h
    subst h1
    exact absurd (List.mem_cons_self _ _) hq

/-- A star-free infix of `'*' :: xs` is empty or an infix of `xs`. -/
theorem infix_star_cons {q xs : List Char} (hq : '*' ∉ q) (h : q <:+: '*' :: xs) :
    q = [] ∨ q <:+: xs := by
  rw [ List.infix_cons_iff] at h
  rcases h with h | h
  · exact Or.inl (prefix_star_cons hq h)
  · exact Or.inr h

/-- Master lemma, prefix form: a star-free prefix of the replaced text is a
prefix of the original and contains no occurrence of the pattern. -/
theorem starFree_prefix_replaceAll {p : List Char} (hp : p ≠ []) :
    ∀ t q, '*' ∉ q → q <+: replaceAll t p → q <+: t ∧ ¬ p <:+: q := by
  intro t
  induction t with
  | nil =>
    intro q _ hpre
    rw [replaceAll_nil] at hpre
    have h0 : q = [] :=  List.prefix_nil.mp hpre
    subst h0
    exact ⟨ List.nil_prefix, fun hinf => hp ( List.infix_nil.mp hinf)⟩
  | cons c rest ih =>
    intro q hq hpre
    rw [replaceAll_cons] at hpre
    by_cases hm : p ≠ [] ∧ p <+: (c :: rest)
    · rw [if_pos hm] at hpre
      have h0 : q = [] := prefix_star_cons hq hpre
      subst h0
      exact ⟨ List.nil_prefix, fun hinf => hp ( List.infix_nil.mp hinf)⟩
    · rw [if_neg hm] at hpre
      cases q with
      | nil => exact ⟨ List.nil_prefix, fun hinf => hp ( List.infix_nil.mp hinf)⟩
      | cons a as =>
        rw [List.cons_prefix_cons] at hpre
        obtain ⟨hac, has⟩ := hpre
        subst hac
        have hq' : '*' ∉ as := fun hmem => hq (List.mem_cons_of_mem _ hmem)
        obtain ⟨ih1, ih2⟩ := ih as hq' has
        refine ⟨List.cons_prefix_cons.mpr ⟨rfl, ih1⟩, ?_⟩
        intro hinf
        rw [ List.infix_cons_iff] at hinf
        rcases hinf with hpre2 | hinf2
        · exact hm ⟨hp, hpre2.trans (List.cons_prefix_cons.mpr ⟨rfl, ih1⟩)⟩
        · exact ih2 hinf2

/-- Master lemma, infix form: a star-free infix of the replaced text is an
infix of the original and contains no occurrence of the pattern. -/
theorem starFree_infix_replaceAll :
    ∀ (t p q : List Char), p ≠ [] → '*' ∉ q →
      q <:+: replaceAll t p → q <:+: t ∧ ¬ p <:+: q
  | [], p, q, hp, _, hinf => by
    rw [replaceAll_nil] at hinf
    have h0 : q = [] :=  List.infix_nil.mp hinf
    subst h0
    exact ⟨ List.nil_infix, fun hinf2 => hp ( List.infix_nil.mp hinf2)⟩
  | c :: rest, p, q, hp, hq, hinf => by
    rw [replaceAll_cons] at hinf
    by_cases hm : p ≠ [] ∧ p <+: (c :: rest)
    · rw [if_pos hm] at hinf
      have hps : p.length ≥ 1 := by
        cases p with
        | nil => exact absurd rfl hp
        | cons x xs => simp
      have hdroplen : ((c :: rest).drop p.length).length < (c :: rest).length := by
        simp [List.length_drop]; omega
      have hstep : q = [] ∨ q <:+: replaceAll ((c :: rest).drop p.length) p := by
        have h1 := infix_star_cons hq hinf
        rcases h1 with h1 | h1
        · exact Or.inl h1
        have h2 := infix_star_cons hq h1
        rcases h2 with h2 | h2
        · exact Or.inl h2
        have h3 := infix_star_cons hq h2
        rcases h3 with h3 | h3
        · exact Or.inl h3
        · exact Or.inr h3
      rcases hstep with h0 | hstep
      · subst h0
        exact ⟨ List.nil_infix, fun hinf2 => hp ( List.infix_nil.mp hinf2)⟩
      · obtain ⟨ih1, ih2⟩ :=
          starFree_infix_replaceAll ((c :: rest).drop p.length) p q hp hq hstep
        exact ⟨ih1.trans ( List.IsSuffix.isInfix ( List.drop_suffix _ _)), ih2⟩
    · rw [if_neg hm] at hinf
      rw [ List.infix_cons_iff] at hinf
      rcases hinf with hpre | hinf2
      · have hpre2 : q <+: replaceAll (c :: rest) p := by
          rw [replaceAll_cons, if_neg hm]
          exact hpre
        obtain ⟨h1, h2⟩ := starFree_prefix_replaceAll hp (c :: rest) q hq hpre2
        exact ⟨ List.IsPrefix.isInfix h1, h2⟩
      · obtain ⟨ih1, ih2⟩ := starFree_infix_replaceAll rest p q hp hq hinf2
        exact ⟨ih1.trans ( List.IsSuffix.isInfix ( List.suffix_cons c rest)), ih2⟩
termination_by t => t.length
decreasing_by
  · have hps2 : p.length ≥ 1 := by
      cases p with
      | nil => exact absurd rfl hp
      | cons x xs => simp
    simp [List.length_drop]
    omega
  · simp

/-- The pattern itself (star-free, non-empty) never survives replacement. -/
theorem not_infix_replaceAll_self {p : List Char} (hp : p ≠ []) (hps : '*' ∉ p)
    (t : List Char) : ¬ p <:+: replaceAll t p := by
  intro h
  exact (starFree_infix_replaceAll t p p hp hps h).2 ( List.infix_refl p)

/-- Replacement with an absent pattern is the identity. -/
theorem replaceAll_of_absent {p : List Char} :
    ∀ t, ¬ p <:+: t → replaceAll t p = t := by
  intro t
  induction t with
  | nil => intro _; exact replaceAll_nil p
  | cons c rest ih =>
    intro habs
    rw [replaceAll_cons]
    rw [if_neg ?_]
    · rw [ih (fun h => habs (h.trans ( List.IsSuffix.isInfix ( List.suffix_cons c rest))))]
    · intro hm
      exact habs ( List.IsPrefix.isInfix hm.2)

theorem valuePass_nil (t : List Char) : valuePass t [] = t := rfl

theorem valuePass_cons (t : List Char) (s : List Char) (rest : List (List Char)) :
    valuePass t (s :: rest) =
      valuePass (if s = [] then t else replaceAll t s) rest := rfl

/-- A star-free pattern absent from the input stays absent through the whole
value phase. -/
theorem not_infix_valuePass_of_not_infix {q : List Char} (hq : '*' ∉ q) :
    ∀ (S : List (List Char)) (t : List Char), ¬ q <:+: t → ¬ q <:+: valuePass t S := by
  intro S
  induction S with
  | nil => intro t habs; exact habs
  | cons s rest ih =>
    intro t habs
    rw [valuePass_cons]
    by_cases hs : s = []
    · rw [if_pos hs]; exact ih t habs
    · rw [if_neg hs]
      refine ih _ ?_
      intro hinf
      exact habs (starFree_infix_replaceAll t s q hs hq hinf).1

/-- After the value phase, no non-empty star-free secret from the list occurs
in the output. -/
theorem not_infix_valuePass {s : List Char} (hs : s ≠ []) (hstar : '*' ∉ s) :
    ∀ (S : List (List Char)) (t : List Char), s ∈ S → ¬ s <:+: valuePass t S := by
  intro S
  induction S with
  | nil => intro t hmem; exact absurd hmem (List.not_mem_nil s)
  | cons s0 rest ih =>
    intro t hmem
    rw [valuePass_cons]
    rcases List.mem_cons.mp hmem with heq | hmem2
    · subst heq
      rw [if_neg hs]
      exact not_infix_valuePass_of_not_infix hstar rest _ (not_infix_replaceAll_self hs hstar t)
    · exact ih _ hmem2

/-- If every non-empty secret in `S` is absent from `v`, the value phase leaves
`v` unchanged. -/
theorem valuePass_id_of_absent :
    ∀ (S : List (List Char)) (v : List Char),
      (∀ s ∈ S, s ≠ [] → ¬ s <:+: v) → valuePass v S = v := by
  intro S
  induction S with
  | nil => intro v _; rfl
  | cons s rest ih =>
    intro v habs
    rw [valuePass_cons]
    by_cases hs : s = []
    · rw [if_pos hs]
      exact ih v (fun x hx hne => habs x (List.mem_cons_of_mem _ hx) hne)
    · rw [if_neg hs]
      rw [replaceAll_of_absent v (habs s (List.mem_cons_self _ _) hs)]
      exact ih v (fun x hx hne => habs x (List.mem_cons_of_mem _ hx) hne)

/-- The value phase is idempotent whenever no secret contains `'*'`. -/
theorem valuePass_idempotent {S : List (List Char)}
    (hstar : ∀ s ∈ S, '*' ∉ s) (t : List Char) :
    valuePass (valuePass t S) S = valuePass t S := by
  apply valuePass_id_of_absent
  intro s hmem hne
  exact not_infix_valuePass hne (hstar s hmem) S t hmem

theorem updRunRow_id (runId status : String) (currentStep : Nat) (ts : String)
    (r : RunRow) : (updRunRow runId status currentStep ts r).id = r.id := by
  unfold updRunRow
  split <;> rfl

theorem updateRun_runs (s : EngineState) (runId status : String) (currentStep : Nat) :
    (updateRun s runId status currentStep).runs =
      s.runs.map (updRunRow runId status currentStep ("ts" ++ toString s.clock)) := rfl

theorem updateRun_approvals (s : EngineState) (runId status : String) (currentStep : Nat) :
    (updateRun s runId status currentStep).approvals = s.approvals := rfl

theorem updateRun_workflows (s : EngineState) (runId status : String) (currentStep : Nat) :
    (updateRun s runId status currentStep).workflows = s.workflows := rfl

theorem createApproval_runs (s : EngineState) (runId actionType payloadHash : String) :
    ((createApproval s runId actionType payloadHash).2).runs = s.runs := rfl

theorem createApproval_workflows (s : EngineState) (runId actionType payloadHash : String) :
    ((createApproval s runId actionType payloadHash).2).workflows = s.workflows := rfl

theorem createApproval_approvals (s : EngineState) (runId actionType payloadHash : String) :
    ((createApproval s runId actionType payloadHash).2).approvals =
      s.approvals ++ [(createApproval s runId actionType payloadHash).1] := rfl

theorem createApproval_row (s : EngineState) (runId actionType payloadHash : String) :
    (createApproval s runId actionType payloadHash).1 =
      { id := "uuid" ++ toString s.fresh, run_id := runId, action_type := actionType,
        payload_hash := payloadHash, status := "pending",
        decided_by := none, decided_at := none } := rfl

theorem writeArtifact_runs (env : Env) (s : EngineState) (runId filename content : String) :
    (writeArtifact env s runId filename content).runs = s.runs := rfl

theorem writeArtifact_workflows (env : Env) (s : EngineState) (runId filename content : String) :
    (writeArtifact env s runId filename content).workflows = s.workflows := rfl

theorem writeArtifact_approvals (env : Env) (s : EngineState) (runId filename content : String) :
    (writeArtifact env s runId filename content).approvals = s.approvals := rfl

theorem runStatus_congr {s1 s2 : EngineState} (h : s1.runs = s2.runs) (runId : String) :
    runStatus s1 runId = runStatus s2 runId := by
  unfold runStatus
  rw [h]

/-- Lemma: `find?` by id commutes with an id-preserving row map. -/
theorem find?_map_id_pres {f : RunRow → RunRow} (hid : ∀ r, (f r).id = r.id)
    (rid : String) :
    ∀ l : List RunRow,
      (l.map f).find? (fun r => r.id = rid) =
        (l.find? (fun r => r.id = rid)).map f := by
  intro l
  induction l with
  | nil => rfl
  | cons a l ih =>
    by_cases h : a.id = rid
    · rw [List.map_cons, List.find?_cons_of_pos _ (by simp [hid, h]),
        List.find?_cons_of_pos _ (by simp [h])]
      rfl
    · rw [List.map_cons, List.find?_cons_of_neg _ (by simp [hid, h]),
        List.find?_cons_of_neg _ (by simp [h])]
      exact ih

theorem runStatus_updateRun_ne {rid rid2 : String} (hne : rid2 ≠ rid)
    (s : EngineState) (status : String) (currentStep : Nat) :
    runStatus (updateRun s rid status currentStep) rid2 = runStatus s rid2 := by
  unfold runStatus
  rw [updateRun_runs, find?_map_id_pres (updRunRow_id rid status currentStep _) rid2]
  cases h : s.runs.find? (fun r => r.id = rid2) with
  | none => rfl
  | some r =>
    have hr : r.id = rid2 := by
      have := List.find?_some h
      simpa using this
    have : updRunRow rid status currentStep ("ts" ++ toString s.clock) r = r := by
      unfold updRunRow
      rw [if_neg]
      rw [hr]
      exact hne
    simp [this]

theorem runStatus_updateRun_self (s : EngineState) (rid status : String) (currentStep : Nat) :
    runStatus (updateRun s rid status currentStep) rid =
      (runStatus s rid).map (fun _ => status) := by
  unfold runStatus
  rw [updateRun_runs, find?_map_id_pres (updRunRow_id rid status currentStep _) rid]
  cases h : s.runs.find? (fun r => r.id = rid) with
  | none => rfl
  | some r =>
    have hr : r.id = rid := by
      have := List.find?_some h
      simpa using this
    simp [updRunRow, hr]

/-- The interpreter loop never touches rows of other runs. -/
theorem execSteps_runStatus_ne (env : Env) {rid rid2 : String} (hne : rid2 ≠ rid)
    (wfName : String) (payload : Json) (steps : List Json) :
    ∀ (remaining : List Json) (index : Nat) (s : EngineState),
      runStatus (execSteps env s rid wfName payload steps index remaining).1 rid2 =
        runStatus s rid2 := by
  intro remaining
  induction remaining with
  | nil =>
    intro index s
    exact Eq.trans
      (@runStatus_congr _ (updateRun s rid "completed" steps.length) rfl rid2)
      (runStatus_updateRun_ne hne s "completed" steps.length)
  | cons step remaining ih =>
    intro index s
    simp only [execSteps]
    by_cases h1 : getStrD step "type" "" = "agent_step"
    · rw [if_pos h1, ih]
      rw [runStatus_updateRun_ne hne]
      exact runStatus_congr (writeArtifact_runs env s rid _ _) rid2
    · rw [if_neg h1]
      by_cases h2 : getStrD step "type" "" = "approval_gate"
      · rw [if_pos h2]
        by_cases h3 : ¬ hasApproved s.approvals rid (hash_payload step)
        · rw [if_pos h3]
          show runStatus (updateRun (createApproval s rid _ _).2 rid "waiting_approval" index) rid2 =
            runStatus s rid2
          rw [runStatus_updateRun_ne hne]
          exact runStatus_congr (createApproval_runs s rid _ _) rid2
        · rw [if_neg h3, ih]
          exact runStatus_updateRun_ne hne s "running" (index + 1)
      · rw [if_neg h2]
        by_cases h4 : getStrD step "type" "" = "tool_step"
        · rw [if_pos h4]
          by_cases h5 : jsonTruthy ((step.get "write").getD .null) = true ∧
              ¬ hasApproved s.approvals rid (hash_payload step)
          · rw [if_pos h5]
            show runStatus (updateRun (createApproval s rid _ _).2 rid "waiting_approval" index) rid2 =
              runStatus s rid2
            rw [runStatus_updateRun_ne hne]
            exact runStatus_congr (createApproval_runs s rid _ _) rid2
          · rw [if_neg h5]
            split
            · rfl
            · rw [ih, runStatus_updateRun_ne hne]
              exact runStatus_congr (writeArtifact_runs env s rid _ _) rid2
        · rw [if_neg h4]
          by_cases h6 : getStrD step "type" "" = "http_step"
          · rw [if_pos h6, ih]
            rw [runStatus_updateRun_ne hne]
            exact runStatus_congr (writeArtifact_runs env s rid _ _) rid2
          · rw [if_neg h6]
            exact ih (index + 1) s

/-- Lemma: `_execute_run` never touches rows of runs other than its target. -/
theorem executeRun_runStatus_ne (env : Env) {rid rid2 : String} (hne : rid2 ≠ rid)
    (s : EngineState) :
    runStatus (executeRun env s rid).1 rid2 = runStatus s rid2 := by
  unfold executeRun
  cases hg : getRunState s rid with
  | none => rfl
  | some triple =>
    obtain ⟨workflowId, currentStep, status⟩ := triple
    dsimp only
    by_cases hs : status ≠ "running" ∧ status ≠ "waiting_approval"
    · rw [if_pos hs]
    · rw [if_neg hs]
      cases hw : wfLookup s workflowId with
      | none => rfl
      | some wf =>
        dsimp only
        exact execSteps_runStatus_ne env hne wf.name _ wf.steps _ currentStep s

/-- A run whose status is terminal is left untouched by `_execute_run`,
whichever run the interpreter is invoked on. -/
theorem executeRun_terminal_frozen (env : Env) (s : EngineState) (rid rid2 st : String)
    (hst : runStatus s rid2 = some st) (hterm : isTerminal st) :
    runStatus (executeRun env s rid).1 rid2 = some st := by
  by_cases hne : rid2 = rid
  · subst hne
    unfold runStatus at hst
    cases hf : s.runs.find? (fun r => r.id = rid2) with
    | none => rw [hf] at hst; exact absurd hst (by simp)
    | some r =>
      rw [hf] at hst
      have hrst : r.status = st := by simpa using hst
      have hg : getRunState s rid2 = some (r.workflow_id, r.current_step, r.status) := by
        unfold getRunState
        rw [hf]
        rfl
      have hnr : r.status ≠ "running" ∧ r.status ≠ "waiting_approval" := by
        rw [hrst]
        rcases hterm with h | h | h <;> rw [h] <;> exact ⟨by decide, by decide⟩
      unfold executeRun
      rw [hg]
      dsimp only
      rw [if_pos hnr]
      unfold runStatus
      rw [hf]
      simpa using hrst
  · rw [executeRun_runStatus_ne env hne s]
    exact hst

/-- The state `create_run` returns is the state the interpreter left behind. -/
theorem createRun_state (env : Env) (s : EngineState) (workflowId : String)
    (inputPayload : Json) :
    (createRun env s workflowId inputPayload).1 =
      (executeRun env
        { s with
          runs := s.runs ++
            [{ id := "uuid" ++ toString s.fresh, workflow_id := workflowId,
               status := "running", current_step := 0, input := some inputPayload,
               created_at := "ts" ++ toString s.clock,
               updated_at := "ts" ++ toString s.clock }],
          fresh := s.fresh + 1, clock := s.clock + 1 }
        ("uuid" ++ toString s.fresh)).1 := by
  unfold createRun
  cases hres : executeRun env _ ("uuid" ++ toString s.fresh) with
  | mk s4 r =>
    cases r with
    | ok u => simp only [genId, nowTs] at hres ⊢; rw [hres]
    | error e => simp only [genId, nowTs] at hres ⊢; rw [hres]

/-- Lemma: `create_run` (with a fresh run id) leaves terminal runs untouched. -/
theorem createRun_terminal_frozen (env : Env) (s : EngineState) (workflowId : String)
    (inputPayload : Json) (rid2 st : String)
    (hfresh : ∀ r ∈ s.runs, r.id ≠ "uuid" ++ toString s.fresh)
    (hst : runStatus s rid2 = some st) (hterm : isTerminal st) :
    runStatus (createRun env s workflowId inputPayload).1 rid2 = some st := by
  rw [createRun_state]
  unfold runStatus at hst
  cases hf : s.runs.find? (fun r => r.id = rid2) with
  | none => rw [hf] at hst; exact absurd hst (by simp)
  | some r =>
    rw [hf] at hst
    have hmem : r ∈ s.runs := List.mem_of_find?_eq_some hf
    have hrid : r.id = rid2 := by
      have := List.find?_some hf
      simpa using this
    have hne : rid2 ≠ "uuid" ++ toString s.fresh := by
      rw [← hrid]
      exact hfresh r hmem
    rw [executeRun_runStatus_ne env hne]
    unfold runStatus
    show (((s.runs ++ _).find? (fun r => r.id = rid2)).map (fun r => r.status)) = some st
    rw [List.find?_append, hf]
    simpa using hst

/-- C1 counterexample: `approve` does not check for terminal status. Rejecting
a completed run flips its status to `rejected`, and approving a completed run
re-runs the interpreter, so the completion notifier fires a second time. -/
theorem approve_exits_terminal_cex :
    runStatus cexC1 "r1" = some "completed" ∧
    runStatus (approve env0 cexC1 "r1" "a1" "rejected" none).1 "r1" = some "rejected" ∧
    (approve env0 cexC1 "r1" "a1" "approved" none).1.notifierCalls = ["r1", "r1"] :=
  ⟨by decide, by decide, by decide⟩

/-- C1 (amended): the step interpreter and `create_run` (with a fresh run id)
never change the status of a run that is already terminal; only `approve` can. -/
theorem terminal_frozen_without_approve :
    (∀ (env : Env) (s : EngineState) (rid rid2 st : String),
        runStatus s rid2 = some st → isTerminal st →
        runStatus (executeRun env s rid).1 rid2 = some st) ∧
    (∀ (env : Env) (s : EngineState) (workflowId : String) (input : Json) (rid2 st : String),
        (∀ r ∈ s.runs, r.id ≠ "uuid" ++ toString s.fresh) →
        runStatus s rid2 = some st → isTerminal st →
        runStatus (createRun env s workflowId input).1 rid2 = some st) :=
  ⟨executeRun_terminal_frozen,
   fun env s workflowId input rid2 st hfresh hst hterm =>
     createRun_terminal_frozen env s workflowId input rid2 st hfresh hst hterm⟩

/-- Witness for C1 at a concrete state. -/
theorem terminal_frozen_without_approve_witness :
    runStatus (executeRun env0 cexC1 "r1").1 "r1" = some "completed" ∧
    runStatus (createRun env0 cexC1 "w0" (jobj [])).1 "r1" = some "completed" :=
  ⟨terminal_frozen_without_approve.1 env0 cexC1 "r1" "r1" "completed" (by decide)
      (by unfold isTerminal; decide),
   terminal_frozen_without_approve.2 env0 cexC1 "w0" (jobj []) "r1" "completed"
      (by decide) (by decide) (by unfold isTerminal; decide)⟩

/-- C6 counterexample: rejecting does not leave `current_step` unchanged — the
engine resets it to 0 (`self._update_run(run_id, "rejected", 0)`). -/
theorem reject_resets_current_step_cex :
    ((cexC6.runs.find? (fun r => r.id = "r1")).map (fun r => r.current_step) = some 1) ∧
    (((approve env0 cexC6 "r1" "a1" "rejected" (some "u")).1.runs.find?
        (fun r => r.id = "r1")).map (fun r => r.current_step) = some 0) :=
  ⟨by decide, by decide⟩

/-- C6 (amended): `approve` with decision `rejected` sets the run's status to
`rejected`, resets `current_step` to 0 and refreshes `updated_at`; all other
run fields are unchanged, and the call reports success. -/
theorem approve_rejected_behavior (env : Env) (s : EngineState) (rid aid : String)
    (dby : Option String) (r : RunRow)
    (hfind : s.runs.find? (fun x => x.id = rid) = some r) :
    (approve env s rid aid "rejected" dby).2 = .ok () ∧
    (approve env s rid aid "rejected" dby).1.runs.find? (fun x => x.id = rid) =
      some { r with status := "rejected", current_step := 0,
                    updated_at := "ts" ++ toString (s.clock + 1) } := by
  have hrid : r.id = rid := by
    have := List.find?_some hfind
    simpa using this
  unfold approve
  simp only [nowTs]
  rw [if_neg (by decide : ¬ ("rejected" = "approved"))]
  have hfind3 :
      ∀ s3 : EngineState, s3.runs = s.runs.map (updRunRow rid "rejected" 0
          ("ts" ++ toString (s.clock + 1))) →
        s3.runs.find? (fun x => x.id = rid) =
          some { r with status := "rejected", current_step := 0,
                        updated_at := "ts" ++ toString (s.clock + 1) } := by
    intro s3 h3
    rw [h3, find?_map_id_pres (updRunRow_id rid "rejected" 0 _) rid, hfind]
    simp [updRunRow, hrid]
  have hmain := hfind3 (updateRun
      { s with
        approvals := s.approvals.map (fun a =>
          if a.id = aid then
            { a with status := "rejected", decided_by := dby,
                     decided_at := some ("ts" ++ toString s.clock) }
          else a)
        clock := s.clock + 1 } rid "rejected" 0) rfl
  have hg : getRunState (updateRun
      { s with
        approvals := s.approvals.map (fun a =>
          if a.id = aid then
            { a with status := "rejected", decided_by := dby,
                     decided_at := some ("ts" ++ toString s.clock) }
          else a)
        clock := s.clock + 1 } rid "rejected" 0) rid =
      some (r.workflow_id, 0, "rejected") := by
    unfold getRunState
    rw [hmain]
    rfl
  rw [hg]
  exact ⟨rfl, hmain⟩

/-- Witness for C6 at a concrete state. -/
theorem approve_rejected_behavior_witness :
    (approve env0 cexC6 "r1" "a1" "rejected" (some "u")).2 = .ok () ∧
    (approve env0 cexC6 "r1" "a1" "rejected" (some "u")).1.runs.find?
        (fun x => x.id = "r1") =
      some { id := "r1", workflow_id := "w0", status := "rejected",
             current_step := 0, input := none, created_at := "t0",
             updated_at := "ts1" } :=
  approve_rejected_behavior env0 cexC6 "r1" "a1" (some "u")
    { id := "r1", workflow_id := "w0", status := "waiting_approval",
      current_step := 1, input := none, created_at := "t0", updated_at := "t0" }
    rfl

theorem createRun_as_inserted (env : Env) (s : EngineState) (workflowId : String)
    (input : Json) :
    createRun env s workflowId input =
      ((executeRun env (insertedState s workflowId input) ("uuid" ++ toString s.fresh)).1,
       match (executeRun env (insertedState s workflowId input)
           ("uuid" ++ toString s.fresh)).2 with
       | .ok _ => .ok (newRunRow s workflowId input)
       | .error e => .error e) := rfl

/-- C10: `create_run` on an unknown workflow id raises "Workflow not found"
only after committing the run row; the orphan row persists with
`status = running` and `current_step = 0`. -/
theorem create_run_unknown_workflow_orphan (env : Env) (s : EngineState)
    (workflowId : String) (input : Json)
    (hwf : wfLookup s workflowId = none)
    (hfresh : ∀ r ∈ s.runs, r.id ≠ "uuid" ++ toString s.fresh) :
    (createRun env s workflowId input).2 = .error "Workflow not found" ∧
    newRunRow s workflowId input ∈ (createRun env s workflowId input).1.runs := by
  have hnotin : s.runs.find? (fun r => r.id = "uuid" ++ toString s.fresh) = none := by
    rw [List.find?_eq_none]
    intro r hr
    simp [hfresh r hr]
  have hfind : (insertedState s workflowId input).runs.find?
        (fun r => r.id = "uuid" ++ toString s.fresh) =
      some (newRunRow s workflowId input) := by
    show (s.runs ++ [newRunRow s workflowId input]).find? _ = _
    rw [List.find?_append, hnotin]
    simp [List.find?, newRunRow]
  have hexec : executeRun env (insertedState s workflowId input)
        ("uuid" ++ toString s.fresh) =
      (insertedState s workflowId input, .error "Workflow not found") := by
    unfold executeRun
    have hg : getRunState (insertedState s workflowId input)
        ("uuid" ++ toString s.fresh) = some (workflowId, 0, "running") := by
      unfold getRunState
      rw [hfind]
      rfl
    rw [hg]
    dsimp only
    rw [if_neg (by simp : ¬ ("running" ≠ "running" ∧ "running" ≠ "waiting_approval"))]
    have hwf2 : wfLookup (insertedState s workflowId input) workflowId = none := hwf
    rw [hwf2]
  rw [createRun_as_inserted, hexec]
  exact ⟨rfl, List.mem_append_right _ (List.mem_singleton.mpr rfl)⟩

/-- Witness for C10 at a concrete state. -/
theorem create_run_unknown_workflow_orphan_witness :
    (createRun env0 cexC10 "nope" (jobj [])).2 = .error "Workflow not found" ∧
    newRunRow cexC10 "nope" (jobj []) ∈ (createRun env0 cexC10 "nope" (jobj [])).1.runs :=
  create_run_unknown_workflow_orphan env0 cexC10 "nope" (jobj []) rfl
    (by intro r hr; exact absurd hr (List.not_mem_nil r))

/-- The row `selectTop` picks comes from the list. -/
theorem selectTop_mem :
    ∀ (l : List ApprovalRow) (acc : Option ApprovalRow) (r : ApprovalRow),
      l.foldl
        (fun acc r =>
          match acc with
          | none => some r
          | some m => if decidedLt m.decided_at r.decided_at then some r else some m)
        acc = some r →
      acc = some r ∨ r ∈ l := by
  intro l
  induction l with
  | nil => intro acc r h; exact Or.inl h
  | cons x l ih =>
    intro acc r h
    rcases ih _ r h with hstep | hmem
    · cases acc with
      | none =>
        simp only at hstep
        injection hstep with h2
        exact Or.inr (h2 ▸ List.mem_cons_self x l)
      | some m =>
        simp only at hstep
        by_cases hlt : decidedLt m.decided_at x.decided_at
        · rw [if_pos hlt] at hstep
          injection hstep with h2
          exact Or.inr (h2 ▸ List.mem_cons_self x l)
        · rw [if_neg hlt] at hstep
          exact Or.inl hstep
    · exact Or.inr (List.mem_cons_of_mem x hmem)

/-- C3 (amended, soundness half): `_has_approved` answers `true` only if an
approved row for `(run_id, payload_hash)` exists; the converse fails because
only the row with the greatest `decided_at` is inspected. -/
theorem has_approved_sound (approvals : List ApprovalRow) (runId payloadHash : String)
    (h : hasApproved approvals runId payloadHash = true) :
    ∃ a ∈ approvals, a.run_id = runId ∧ a.payload_hash = payloadHash ∧
      a.status = "approved" := by
  unfold hasApproved at h
  cases htop : selectTop (approvals.filter
      (fun a => a.run_id = runId ∧ a.payload_hash = payloadHash)) with
  | none => rw [htop] at h; exact absurd h (by simp)
  | some row =>
    rw [htop] at h
    have hst : row.status = "approved" := by simpa using h
    have hmem : row ∈ approvals.filter
        (fun a => a.run_id = runId ∧ a.payload_hash = payloadHash) := by
      unfold selectTop at htop
      rcases selectTop_mem _ none row htop with habs | hmem
      · exact absurd habs (by simp)
      · exact hmem
    rw [List.mem_filter] at hmem
    refine ⟨row, hmem.1, ?_, ?_, hst⟩
    · have := hmem.2
      simp only [decide_eq_true_eq] at this
      exact this.1
    · have := hmem.2
      simp only [decide_eq_true_eq] at this
      exact this.2

/-- Witness for C3 at a concrete table. -/
theorem has_approved_sound_witness :
    ∃ a ∈ [({ id := "a1", run_id := "r1", action_type := "t",
              payload_hash := "h1", status := "approved",
              decided_by := some "u", decided_at := some "2024-01-01" } : ApprovalRow)],
      a.run_id = "r1" ∧ a.payload_hash = "h1" ∧ a.status = "approved" :=
  has_approved_sound _ "r1" "h1" (by decide)

/-- C3 counterexample: an approved row for `(r1, h1)` exists, but a
later-decided rejected row for the same pair shadows it, so the gate check
returns `false`. -/
theorem has_approved_shadowed_cex :
    (([{ id := "a1", run_id := "r1", action_type := "t",
         payload_hash := "h1", status := "approved",
         decided_by := some "u", decided_at := some "2024-01-01T00:00:00+00:00" },
       { id := "a2", run_id := "r1", action_type := "t",
         payload_hash := "h1", status := "rejected",
         decided_by := some "u", decided_at := some "2024-01-02T00:00:00+00:00" }] :
        List ApprovalRow).any
      (fun a => a.run_id = "r1" ∧ a.payload_hash = "h1" ∧ a.status = "approved") = true) ∧
    hasApproved
      [{ id := "a1", run_id := "r1", action_type := "t",
         payload_hash := "h1", status := "approved",
         decided_by := some "u", decided_at := some "2024-01-01T00:00:00+00:00" },
       { id := "a2", run_id := "r1", action_type := "t",
         payload_hash := "h1", status := "rejected",
         decided_by := some "u", decided_at := some "2024-01-02T00:00:00+00:00" }]
      "r1" "h1" = false :=
  ⟨by decide, by decide⟩

theorem updRunRow_ne {rid : String} {r : RunRow} (h : r.id ≠ rid)
    (st : String) (c : Nat) (ts : String) : updRunRow rid st c ts r = r := by
  unfold updRunRow
  rw [if_neg h]

theorem updRunRow_eq {rid : String} {r : RunRow} (h : r.id = rid)
    (st : String) (c : Nat) (ts : String) :
    updRunRow rid st c ts r = { r with status := st, current_step := c, updated_at := ts } := by
  unfold updRunRow
  rw [if_pos h]

/-- Updating the target run to a non-waiting status preserves I-R2, as long as
pending rows of other runs survive the accompanying approval-table change. -/
theorem IR2Core_map_nonwaiting {wfs : List (String × Workflow)} {runs : List RunRow}
    {apps apps2 : List ApprovalRow} {rid st : String} {c : Nat} {ts : String}
    (hst : st ≠ "waiting_approval")
    (hwit : ∀ a ∈ apps, a.run_id ≠ rid → a ∈ apps2)
    (h : IR2Core wfs runs apps) :
    IR2Core wfs (runs.map (updRunRow rid st c ts)) apps2 := by
  intro r' hmem hw
  rcases List.mem_map.mp hmem with ⟨r0, hr0, hupd⟩
  by_cases hid : r0.id = rid
  · rw [← hupd, updRunRow_eq hid] at hw
    exact absurd hw hst
  · rw [← hupd, updRunRow_ne hid] at hw ⊢
    rcases h r0 hr0 hw with ⟨wf, step, h1, h2, a, ha, ha1, ha2, ha3⟩
    refine ⟨wf, step, h1, h2, a, ?_, ha1, ha2, ha3⟩
    exact hwit a ha (by rw [ha1]; exact hid)

/-- Suspending the target run at a gate preserves I-R2 when the freshly
inserted pending row fingerprints the step at the suspension index. -/
theorem IR2Core_map_waiting {wfs : List (String × Workflow)} {runs : List RunRow}
    {apps : List ApprovalRow} {rid : String} {idx : Nat} {ts : String}
    {wf : Workflow} {step : Json} {row : ApprovalRow}
    (hrow : ∀ r ∈ runs, r.id = rid → wfLookupIn wfs r.workflow_id = some wf)
    (hstep : wf.steps[idx]? = some step)
    (hrid : row.run_id = rid) (hpend : row.status = "pending")
    (hhash : row.payload_hash = hash_payload step)
    (h : IR2Core wfs runs apps) :
    IR2Core wfs (runs.map (updRunRow rid "waiting_approval" idx ts)) (apps ++ [row]) := by
  intro r' hmem hw
  rcases List.mem_map.mp hmem with ⟨r0, hr0, hupd⟩
  by_cases hid : r0.id = rid
  · refine ⟨wf, step, ?_, ?_, row, List.mem_append_right _ (List.mem_singleton.mpr rfl),
      ?_, hpend, hhash⟩
    · rw [← hupd, updRunRow_eq hid]
      exact hrow r0 hr0 hid
    · rw [← hupd, updRunRow_eq hid]
      exact hstep
    · rw [← hupd, updRunRow_eq hid]
      rw [hrid, hid]
  · rw [← hupd, updRunRow_ne hid] at hw ⊢
    rcases h r0 hr0 hw with ⟨wf2, step2, h1, h2, a, ha, ha1, ha2, ha3⟩
    exact ⟨wf2, step2, h1, h2, a, List.mem_append_left _ ha, ha1, ha2, ha3⟩

theorem execSteps_drop_inv {steps : List Json} {index : Nat} {step : Json}
    {remaining : List Json} (h : steps.drop index = step :: remaining) :
    steps.drop (index + 1) = remaining := by
  have h2 := List.drop_drop 1 index steps
  rw [← h2, h]
  rfl

theorem execSteps_step_at {steps : List Json} {index : Nat} {step : Json}
    {remaining : List Json} (h : steps.drop index = step :: remaining) :
    steps[index]? = some step := by
  rw [← List.head?_drop, h]
  rfl

theorem updRunRow_workflow_id (rid st : String) (c : Nat) (ts : String) (r : RunRow) :
    (updRunRow rid st c ts r).workflow_id = r.workflow_id := by
  unfold updRunRow
  split <;> rfl

/-- The target-workflow hypothesis survives an `UPDATE runs` statement. -/
theorem hrow_map {wfs : List (String × Workflow)} {runs : List RunRow}
    {rid : String} {wf : Workflow}
    (hrow : ∀ r ∈ runs, r.id = rid → wfLookupIn wfs r.workflow_id = some wf)
    (st : String) (c : Nat) (ts : String) :
    ∀ r ∈ runs.map (updRunRow rid st c ts), r.id = rid →
      wfLookupIn wfs r.workflow_id = some wf := by
  intro r hmem hr
  rcases List.mem_map.mp hmem with ⟨r0, hr0, hupd⟩
  have hwid : r.workflow_id = r0.workflow_id := by
    rw [← hupd, updRunRow_workflow_id]
  have hid : r0.id = rid := by
    rw [← updRunRow_id rid st c ts r0, hupd]
    exact hr
  rw [hwid]
  exact hrow r0 hr0 hid

/-- The interpreter loop preserves I-R2. -/
theorem execSteps_IR2 (env : Env) (rid wfName : String) (payload : Json)
    (steps : List Json) (wf : Workflow) (hsteps : wf.steps = steps) :
    ∀ (remaining : List Json) (index : Nat) (s : EngineState),
      IR2 s →
      (∀ r ∈ s.runs, r.id = rid → wfLookupIn s.workflows r.workflow_id = some wf) →
      steps.drop index = remaining →
      IR2 (execSteps env s rid wfName payload steps index remaining).1 := by
  intro remaining
  induction remaining with
  | nil =>
    intro index s h hrow hdrop
    exact IR2Core_map_nonwaiting (by decide) (fun a ha _ => ha) h
  | cons step remaining ih =>
    intro index s h hrow hdrop
    have hdrop2 : steps.drop (index + 1) = remaining := execSteps_drop_inv hdrop
    have hstepwf : wf.steps[index]? = some step := by
      rw [hsteps]
      exact execSteps_step_at hdrop
    simp only [execSteps]
    by_cases h1 : getStrD step "type" "" = "agent_step"
    · rw [if_pos h1]
      exact ih (index + 1) _
        (IR2Core_map_nonwaiting (by decide) (fun a ha _ => ha) h)
        (hrow_map hrow _ _ _) hdrop2
    · rw [if_neg h1]
      by_cases h2 : getStrD step "type" "" = "approval_gate"
      · rw [if_pos h2]
        by_cases h3 : ¬ hasApproved s.approvals rid (hash_payload step)
        · rw [if_pos h3]
          exact IR2Core_map_waiting hrow hstepwf rfl rfl rfl h
        · rw [if_neg h3]
          exact ih (index + 1) _
            (IR2Core_map_nonwaiting (by decide) (fun a ha _ => ha) h)
            (hrow_map hrow _ _ _) hdrop2
      · rw [if_neg h2]
        by_cases h4 : getStrD step "type" "" = "tool_step"
        · rw [if_pos h4]
          by_cases h5 : jsonTruthy ((step.get "write").getD .null) = true ∧
              ¬ hasApproved s.approvals rid (hash_payload step)
          · rw [if_pos h5]
            exact IR2Core_map_waiting hrow hstepwf rfl rfl rfl h
          · rw [if_neg h5]
            split
            · exact h
            · exact ih (index + 1) _
                (IR2Core_map_nonwaiting (by decide) (fun a ha _ => ha) h)
                (hrow_map hrow _ _ _) hdrop2
        · rw [if_neg h4]
          by_cases h6 : getStrD step "type" "" = "http_step"
          · rw [if_pos h6]
            exact ih (index + 1) _
              (IR2Core_map_nonwaiting (by decide) (fun a ha _ => ha) h)
              (hrow_map hrow _ _ _) hdrop2
          · rw [if_neg h6]
            exact ih (index + 1) s h hrow hdrop2

theorem ids_map_updRunRow (runs : List RunRow) (rid st : String) (c : Nat) (ts : String) :
    (runs.map (updRunRow rid st c ts)).map (fun r => r.id) =
      runs.map (fun r => r.id) := by
  rw [List.map_map]
  exact List.map_congr_left (fun r _ => updRunRow_id rid st c ts r)

/-- Lemma: `_execute_run` preserves I-R2 (given unique run ids). -/
theorem executeRun_IR2 (env : Env) (s : EngineState) (rid : String)
    (hnd : runIdsNodup s) (h : IR2 s) : IR2 (executeRun env s rid).1 := by
  unfold executeRun
  cases hg : getRunState s rid with
  | none => exact h
  | some triple =>
    obtain ⟨workflowId, currentStep, status⟩ := triple
    dsimp only
    by_cases hs : status ≠ "running" ∧ status ≠ "waiting_approval"
    · rw [if_pos hs]
      exact h
    · rw [if_neg hs]
      cases hw : wfLookup s workflowId with
      | none => exact h
      | some wf =>
        dsimp only
        have hrow : ∀ r ∈ s.runs, r.id = rid →
            wfLookupIn s.workflows r.workflow_id = some wf := by
          unfold getRunState at hg
          cases hf : s.runs.find? (fun r => r.id = rid) with
          | none => rw [hf] at hg; exact absurd hg (by simp)
          | some r0 =>
            rw [hf] at hg
            have hg2 : r0.workflow_id = workflowId := by
              have : (r0.workflow_id, r0.current_step, r0.status) =
                  (workflowId, currentStep, status) := by simpa using hg
              exact congrArg Prod.fst this
            have hr0mem : r0 ∈ s.runs := List.mem_of_find?_eq_some hf
            have hr0id : r0.id = rid := by
              have := List.find?_some hf
              simpa using this
            intro r hmem hr
            have : r = r0 :=
              List.inj_on_of_nodup_map hnd hmem hr0mem (by rw [hr, hr0id])
            rw [this, hg2]
            exact hw
        exact execSteps_IR2 env rid wf.name (loadRunInput s rid) wf.steps wf rfl
          (wf.steps.drop currentStep) currentStep s h hrow rfl

/-- Lemma: `create_run` preserves I-R2 (given a fresh run id). -/
theorem createRun_IR2 (env : Env) (s : EngineState) (workflowId : String) (input : Json)
    (hnd : runIdsNodup s)
    (hfresh : ∀ r ∈ s.runs, r.id ≠ "uuid" ++ toString s.fresh)
    (h : IR2 s) : IR2 (createRun env s workflowId input).1 := by
  rw [createRun_as_inserted]
  apply executeRun_IR2
  · show ((s.runs ++ [newRunRow s workflowId input]).map (fun r => r.id)).Nodup
    rw [List.map_append]
    rw [List.nodup_append]
    refine ⟨hnd, List.nodup_singleton _, ?_⟩
    intro x hx hy
    rcases List.mem_map.mp hx with ⟨r, hr, hrx⟩
    have : x = "uuid" ++ toString s.fresh := by
      simp only [List.map_cons, List.map_nil] at hy
      simpa using hy
    exact hfresh r hr (hrx.trans this)
  · intro r hmem hw
    rcases List.mem_append.mp hmem with hin | hin
    · exact h r hin hw
    · rw [List.mem_singleton.mp hin] at hw
      have hrun : (newRunRow s workflowId input).status = "running" := rfl
      rw [hrun] at hw
      exact absurd hw (by decide)

/-- Variant of `IR2Core_map_nonwaiting` that only needs witnesses for the
runs other than the updated one. -/
theorem IR2Core_map_nonwaiting_except {wfs : List (String × Workflow)}
    {runs : List RunRow} {apps2 : List ApprovalRow} {rid st : String} {c : Nat}
    {ts : String} (hst : st ≠ "waiting_approval")
    (h : ∀ r ∈ runs, r.status = "waiting_approval" → r.id ≠ rid →
      ∃ wf step, wfLookupIn wfs r.workflow_id = some wf ∧
        wf.steps[r.current_step]? = some step ∧
        ∃ a ∈ apps2, a.run_id = r.id ∧ a.status = "pending" ∧
          a.payload_hash = hash_payload step) :
    IR2Core wfs (runs.map (updRunRow rid st c ts)) apps2 := by
  intro r' hmem hw
  rcases List.mem_map.mp hmem with ⟨r0, hr0, hupd⟩
  by_cases hid : r0.id = rid
  · rw [← hupd, updRunRow_eq hid] at hw
    exact absurd hw hst
  · rw [← hupd, updRunRow_ne hid] at hw ⊢
    exact h r0 hr0 hw hid

/-- Lemma: `approve` preserves I-R2 when the named approval row (if it exists)
belongs to the addressed run. -/
theorem approve_IR2 (env : Env) (s : EngineState) (rid aid dec : String)
    (dby : Option String) (hnd : runIdsNodup s)
    (hOwn : ∀ a ∈ s.approvals, a.id = aid → a.run_id = rid)
    (h : IR2 s) : IR2 (approve env s rid aid dec dby).1 := by
  unfold approve
  simp only [nowTs]
  have hexc : ∀ r ∈ s.runs, r.status = "waiting_approval" → r.id ≠ rid →
      ∃ wf step, wfLookupIn s.workflows r.workflow_id = some wf ∧
        wf.steps[r.current_step]? = some step ∧
        ∃ a ∈ s.approvals.map (fun a =>
            if a.id = aid then
              { a with status := dec, decided_by := dby,
                       decided_at := some ("ts" ++ toString s.clock) }
            else a),
          a.run_id = r.id ∧ a.status = "pending" ∧
            a.payload_hash = hash_payload step := by
    intro r hmem hw hne
    rcases h r hmem hw with ⟨wf, step, h1, h2, a, ha, ha1, ha2, ha3⟩
    have hna : a.id ≠ aid := by
      intro he
      exact hne (by rw [← ha1]; exact hOwn a ha he)
    refine ⟨wf, step, h1, h2, a, ?_, ha1, ha2, ha3⟩
    exact List.mem_map.mpr ⟨a, ha, by rw [if_neg hna]⟩
  have hnd2 : ∀ (st : String) (c : Nat),
      runIdsNodup (updateRun
        { s with
          approvals := s.approvals.map (fun a =>
            if a.id = aid then
              { a with status := dec, decided_by := dby,
                       decided_at := some ("ts" ++ toString s.clock) }
            else a)
          clock := s.clock + 1 } rid st c) := by
    intro st c
    show ((s.runs.map (updRunRow rid st c _)).map (fun r => r.id)).Nodup
    rw [ids_map_updRunRow]
    exact hnd
  by_cases hdec : dec = "approved"
  · rw [if_pos hdec]
    split
    · rename_i heqg
      intro r hmem hw
      have hne : r.id ≠ rid := by
        intro he
        unfold getRunState at heqg
        have hfn := Option.map_eq_none.mp heqg
        rw [List.find?_eq_none] at hfn
        exact hfn r hmem (by simp [he])
      exact hexc r hmem hw hne
    · dsimp only
      apply executeRun_IR2
      · exact hnd2 "running" _
      · exact IR2Core_map_nonwaiting_except (by decide) hexc
  · rw [if_neg hdec]
    dsimp only
    exact IR2Core_map_nonwaiting_except (by decide) hexc

/-- C5 (amended): I-R2 is preserved by the interpreter, by `create_run` with a
fresh run id, and by `approve` whenever the named approval row belongs to the
addressed run — all under unique run ids. -/
theorem IR2_preserved_amended :
    (∀ (env : Env) (s : EngineState) (rid : String),
        runIdsNodup s → IR2 s → IR2 (executeRun env s rid).1) ∧
    (∀ (env : Env) (s : EngineState) (workflowId : String) (input : Json),
        runIdsNodup s → (∀ r ∈ s.runs, r.id ≠ "uuid" ++ toString s.fresh) →
        IR2 s → IR2 (createRun env s workflowId input).1) ∧
    (∀ (env : Env) (s : EngineState) (rid aid dec : String) (dby : Option String),
        runIdsNodup s → (∀ a ∈ s.approvals, a.id = aid → a.run_id = rid) →
        IR2 s → IR2 (approve env s rid aid dec dby).1) :=
  ⟨executeRun_IR2,
   fun env s workflowId input hnd hfresh h =>
     createRun_IR2 env s workflowId input hnd hfresh h,
   fun env s rid aid dec dby hnd hOwn h =>
     approve_IR2 env s rid aid dec dby hnd hOwn h⟩

theorem cexC5_IR2 : IR2 cexC5 := by
  intro r hmem hw
  rcases List.mem_cons.mp hmem with hA | hrest
  · rw [hA] at hw
    exact absurd hw (by decide)
  · rcases List.mem_cons.mp hrest with hB | hnil
    · rw [hB] at hw ⊢
      refine ⟨{ name := "B", steps := [gateC5] }, gateC5, rfl, rfl,
        { id := "pB", run_id := "B", action_type := "ok",
          payload_hash := hash_payload gateC5, status := "pending",
          decided_by := none, decided_at := none },
        List.mem_singleton.mpr rfl, rfl, rfl, rfl⟩
    · exact absurd hnil (List.not_mem_nil r)

/-- C5 counterexample: approving run `A` while naming run `B`'s pending
approval row consumes that row and leaves `B` waiting with no pending
approval, violating I-R2 for `B`. -/
theorem approve_cross_run_breaks_invariant_cex :
    IR2 cexC5 ∧ ¬ IR2 (approve env0 cexC5 "A" "pB" "approved" none).1 := by
  refine ⟨cexC5_IR2, ?_⟩
  intro h
  have hruns : (approve env0 cexC5 "A" "pB" "approved" none).1.runs =
      [{ id := "A", workflow_id := "wA", status := "completed",
         current_step := 0, input := none, created_at := "t0", updated_at := "ts2" },
       { id := "B", workflow_id := "wB", status := "waiting_approval",
         current_step := 0, input := none, created_at := "t0", updated_at := "t0" }] := rfl
  have happs : (approve env0 cexC5 "A" "pB" "approved" none).1.approvals =
      [{ id := "pB", run_id := "B", action_type := "ok",
         payload_hash := hash_payload gateC5, status := "approved",
         decided_by := none, decided_at := some "ts0" }] := rfl
  have hB := h { id := "B", workflow_id := "wB", status := "waiting_approval",
                 current_step := 0, input := none, created_at := "t0", updated_at := "t0" }
    (by rw [hruns]; exact List.mem_cons_of_mem _ (List.mem_singleton.mpr rfl)) rfl
  rcases hB with ⟨wf, step, _, _, a, ha, _, ha2, _⟩
  rw [happs] at ha
  rw [List.mem_singleton.mp ha] at ha2
  exact absurd ha2 (by decide)

/-- Witness for C5 at a concrete state. -/
theorem IR2_preserved_amended_witness :
    IR2 (executeRun env0 cexC5 "A").1 ∧
    IR2 (createRun env0 cexC5 "wA" (jobj [])).1 ∧
    IR2 (approve env0 cexC5 "B" "pB" "approved" none).1 :=
  ⟨IR2_preserved_amended.1 env0 cexC5 "A"
      (by show (cexC5.runs.map (fun r => r.id)).Nodup; decide) cexC5_IR2,
   IR2_preserved_amended.2.1 env0 cexC5 "wA" (jobj [])
      (by show (cexC5.runs.map (fun r => r.id)).Nodup; decide) (by decide) cexC5_IR2,
   IR2_preserved_amended.2.2 env0 cexC5 "B" "pB" "approved" none
      (by show (cexC5.runs.map (fun r => r.id)).Nodup; decide)
      (by intro a ha hid
          rw [List.mem_singleton.mp ha])
      cexC5_IR2⟩

/-- Reading back a file just written returns what was written. -/
theorem assocGet_assocSet (m : List (String × String)) (k v : String) :
    assocGet (assocSet m k v) k = some v := by
  unfold assocSet
  by_cases hany : m.any (fun e => e.1 = k)
  · rw [if_pos hany]
    induction m with
    | nil => simp at hany
    | cons e rest ih =>
      by_cases he : e.1 = k
      · unfold assocGet
        rw [List.map_cons, if_pos he,
          List.find?_cons_of_pos _ (by simp)]
        rfl
      · have hrest : rest.any (fun e => e.1 = k) := by
          rcases List.any_eq_true.mp hany with ⟨x, hx, hpx⟩
          rcases List.mem_cons.mp hx with hxe | hxr
          · rw [hxe] at hpx
            exact absurd (by simpa using hpx) he
          · exact List.any_eq_true.mpr ⟨x, hxr, hpx⟩
        unfold assocGet
        rw [List.map_cons, if_neg he,
          List.find?_cons_of_neg _ (by simp [he])]
        exact ih hrest
  · rw [if_neg hany]
    unfold assocGet
    rw [List.find?_append]
    have hnone : m.find? (fun e => e.1 = k) = none := by
      rw [List.find?_eq_none]
      intro e he hpe
      exact hany (List.any_eq_true.mpr ⟨e, he, hpe⟩)
    rw [hnone]
    simp [List.find?]

/-- C2 counterexample: with vault secret `"**"`, writing artifact content
`"**"` produces the file text `"***"`, which still contains the secret as a
substring. -/
theorem artifact_secret_survives_cex :
    assocGet (writeArtifact env0 cexC2 "r1" "a.txt" "**").files
        "/data/artifacts/runs/r1/a.txt" = some "***" ∧
    "**".data <:+: "***".data :=
  ⟨by decide, by decide⟩

/-- C2 (amended): the artifact file holds exactly `redact_text(content,
secrets)`, and no non-empty vault secret that avoids the mask character `'*'`
survives as a substring. -/
theorem artifact_redaction_starfree (env : Env) (s : EngineState)
    (runId filename content : String) (secrets : List String)
    (hv : s.vaultSecrets = some secrets) :
    assocGet (writeArtifact env s runId filename content).files
        (artifactPath env runId filename) = some (redactText content secrets) ∧
    (∀ sec ∈ secrets, sec ≠ "" → '*' ∉ sec.data →
      ¬ sec.data <:+: (redactText content secrets).data) := by
  constructor
  · show assocGet (assocSet s.files (artifactPath env runId filename)
        (redactText content (s.vaultSecrets.getD []))) (artifactPath env runId filename) =
      some (redactText content secrets)
    rw [hv]
    exact assocGet_assocSet _ _ _
  · intro sec hmem hne hstar hinf
    have hne2 : sec.data ≠ [] := by
      intro hdata
      exact hne (String.ext (hdata.trans rfl))
    have hmem2 : sec.data ∈ secrets.map String.data := List.mem_map_of_mem _ hmem
    exact not_infix_valuePass hne2 hstar (secrets.map String.data)
      (patternPass content.data) hmem2 hinf

theorem artifact_redaction_starfree_witness :
    assocGet (writeArtifact env0 cexC2b "r1" "a.txt" "x abc y").files
        (artifactPath env0 "r1" "a.txt") = some (redactText "x abc y" ["abc"]) ∧
    (∀ sec ∈ ["abc"], sec ≠ "" → '*' ∉ sec.data →
      ¬ sec.data <:+: (redactText "x abc y" ["abc"]).data) :=
  artifact_redaction_starfree env0 cexC2b "r1" "a.txt" "x abc y" ["abc"] rfl

/-- C7 counterexample: with secret list `["**"]`, redacting `"**"` yields
`"***"`, and redacting again yields `"****"` — the redactor is not
idempotent. -/
theorem redact_not_idempotent_cex :
    redactText "**" ["**"] = "***" ∧
    redactText (redactText "**" ["**"]) ["**"] = "****" ∧
    redactText (redactText "**" ["**"]) ["**"] ≠ redactText "**" ["**"] :=
  ⟨by decide, by decide, by decide⟩

/-- C7 (amended): redaction is idempotent provided no secret contains the
mask character `'*'` and the pattern phase is neutral on the already-redacted
text. -/
theorem redact_idempotent_conditional (t : String) (secrets : List String)
    (hstar : ∀ sec ∈ secrets, '*' ∉ sec.data)
    (hpat : patternPass (redactText t secrets).data = (redactText t secrets).data) :
    redactText (redactText t secrets) secrets = redactText t secrets := by
  apply String.ext
  show valuePass (patternPass (redactText t secrets).data) (secrets.map String.data) =
    (redactText t secrets).data
  rw [hpat]
  show valuePass (valuePass (patternPass t.data) (secrets.map String.data))
      (secrets.map String.data) = valuePass (patternPass t.data) (secrets.map String.data)
  apply valuePass_idempotent
  intro sd hsd
  rcases List.mem_map.mp hsd with ⟨sec, hsec, hrfl⟩
  rw [← hrfl]
  exact hstar sec hsec

/-- Witness for C7 at a concrete input. -/
theorem redact_idempotent_conditional_witness :
    redactText (redactText "hello b" ["b"]) ["b"] = redactText "hello b" ["b"] :=
  redact_idempotent_conditional "hello b" ["b"]
    (by intro sec hsec; rw [List.mem_singleton.mp hsec]; decide)
    (by decide)

/-- C4 counterexample: the two key orders of `{a: 1, b: 2}` hash to different
digests — `hash_payload` is not invariant under key reordering. -/
theorem hash_payload_key_order_cex :
    hash_payload (jobj [("a", .num 1), ("b", .num 2)]) ≠
      hash_payload (jobj [("b", .num 2), ("a", .num 1)]) := by
  decide

/-- C4 (amended): `hash_payload` is SHA-256 over `json.dumps(value,
ensure_ascii=False)` with the default separators: keys keep insertion order
and a space follows each `:` and `,`, so structurally equal objects with
different insertion orders serialize — and hash — differently. -/
theorem hash_payload_insertion_order_encoding :
    json_dump (jobj [("a", .num 1), ("b", .num 2)]) = "\x7b\"a\": 1, \"b\": 2\x7d" ∧
    json_dump (jobj [("b", .num 2), ("a", .num 1)]) = "\x7b\"b\": 2, \"a\": 1\x7d" ∧
    hash_payload (jobj [("a", .num 1), ("b", .num 2)]) =
      "d8497d9d82770a70729261095aa98f7ef5154d7af499f8037b6ca250296785a6" ∧
    ∀ j : Json, hash_payload j = sha256Hex (utf8Bytes (json_dump j)) :=
  ⟨by decide, by decide, by decide, fun _ => rfl⟩

/-- C9 counterexample: when TTS synthesis raises, `notify_completion`
propagates the exception and no webhook POST is produced, although
notification is enabled and a webhook URL is configured. -/
theorem tts_failure_aborts_webhook_cex :
    notify_completion ⟨"http://h/w", "", true⟩ "r1" (some ⟨"completed"⟩) [] "main" "t0"
      (.error "tts down") = .error "tts down" := rfl

/-- C9 (amended): a TTS failure is fatal for the notification — the error
propagates out of `notify_completion` and the webhook payload is not sent
(the engine catches the exception, so only the notification is lost). -/
theorem tts_failure_propagates (cfg : NotifierCfg) (runId : String)
    (runInfo : NotifierRunInfo) (artifacts : List NotifierArtifact)
    (activePreset finishedAt e : String)
    (hnc : cfg.notifyOnComplete = true) (hurl : cfg.webhookUrl ≠ "") :
    notify_completion cfg runId (some runInfo) artifacts activePreset finishedAt
      (.error e) = .error e := by
  unfold notify_completion
  rw [if_neg]
  intro hcon
  rcases hcon with hcon | hcon
  · rw [hnc] at hcon
    simp at hcon
  · exact hurl hcon

/-- Witness for C9 at a concrete configuration. -/
theorem tts_failure_propagates_witness :
    notify_completion ⟨"http://h/w", "sec", true⟩ "r9" (some ⟨"completed"⟩) [] "main" "t0"
      (.error "boom") = .error "boom" :=
  tts_failure_propagates ⟨"http://h/w", "sec", true⟩ "r9" ⟨"completed"⟩ [] "main" "t0" "boom"
    rfl (by decide)

theorem wordHex_length (w : Nat) : (wordHex w).length = 8 := rfl

/-- A SHA-256 hex digest is 64 characters, hence never the empty string. -/
theorem sha256Hex_ne_empty (msg : List Nat) : sha256Hex msg ≠ "" := by
  intro h
  have hdata : (sha256Hex msg).data = [] := by rw [h]
  have hlen : (sha256Hex msg).data.length = 64 := by
    show ((wordHex (sha256State msg).a ++ wordHex (sha256State msg).b ++
      wordHex (sha256State msg).c ++ wordHex (sha256State msg).d ++
      wordHex (sha256State msg).e ++ wordHex (sha256State msg).f ++
      wordHex (sha256State msg).g ++ wordHex (sha256State msg).hh)).length = 64
    simp [List.length_append, wordHex_length]
  rw [hdata] at hlen
  simp at hlen

theorem hmacSha256Hex_ne_empty (key msg : List Nat) : hmacSha256Hex key msg ≠ "" :=
  sha256Hex_ne_empty _

/-- The signature header appears in the built header dict iff the secret is
non-empty, and then carries the HMAC of the body. -/
theorem notifyHeaders_spec (secret body : String) :
    ((headerGet (notifyHeaders secret body) "X-Dara-Signature").isSome ↔ secret ≠ "") ∧
    (∀ v, headerGet (notifyHeaders secret body) "X-Dara-Signature" = some v →
      v = hmacSha256Hex (utf8Bytes secret) (utf8Bytes body)) := by
  unfold notifyHeaders hmac_signature
  by_cases hsec : secret = ""
  · rw [if_pos hsec]
    rw [if_neg (by simp)]
    constructor
    · constructor
      · intro habs
        simp [headerGet, List.find?] at habs
      · intro habs
        exact absurd hsec habs
    · intro v hv
      simp [headerGet, List.find?] at hv
  · rw [if_neg hsec]
    rw [if_pos (hmacSha256Hex_ne_empty _ _)]
    constructor
    · constructor
      · intro _
        exact hsec
      · intro _
        simp [headerGet, List.find?]
    · intro v hv
      simp [headerGet, List.find?] at hv
      exact hv.symm

/-- C8: the webhook POST carries `X-Dara-Signature` iff the webhook secret is
non-empty, and its value is the hex HMAC-SHA256, keyed by the secret, of the
exact body sent. -/
theorem webhook_signature_header_iff_secret (cfg : NotifierCfg) (runId : String)
    (run : Option NotifierRunInfo) (artifacts : List NotifierArtifact)
    (activePreset finishedAt : String) (tts : Except String (Option String))
    (req : WebhookRequest)
    (h : notify_completion cfg runId run artifacts activePreset finishedAt tts =
      .ok (some req)) :
    ((headerGet req.headers "X-Dara-Signature").isSome ↔ cfg.webhookSecret ≠ "") ∧
    (∀ v, headerGet req.headers "X-Dara-Signature" = some v →
      v = hmacSha256Hex (utf8Bytes cfg.webhookSecret) (utf8Bytes req.body)) := by
  unfold notify_completion at h
  by_cases h1 : ¬ cfg.notifyOnComplete ∨ cfg.webhookUrl = ""
  · rw [if_pos h1] at h
    exact absurd (Except.ok.inj h) (by simp)
  · rw [if_neg h1] at h
    cases run with
    | none => exact absurd h (by simp)
    | some runInfo =>
      cases tts with
      | error e => exact absurd h (by simp)
      | ok audio =>
        have hreq2 := Option.some_injective _ (Except.ok.inj h)
        rw [← hreq2]
        exact notifyHeaders_spec cfg.webhookSecret _

/-- Witness for C8 at a concrete configuration. -/
theorem webhook_signature_header_iff_secret_witness :
    ((headerGet reqC8.headers "X-Dara-Signature").isSome ↔
      (⟨"http://h/w", "secret", true⟩ : NotifierCfg).webhookSecret ≠ "") ∧
    (∀ v, headerGet reqC8.headers "X-Dara-Signature" = some v →
      v = hmacSha256Hex
        (utf8Bytes (⟨"http://h/w", "secret", true⟩ : NotifierCfg).webhookSecret)
        (utf8Bytes reqC8.body)) :=
  webhook_signature_header_iff_secret ⟨"http://h/w", "secret", true⟩ "run1"
    (some ⟨"completed"⟩) [] "main" "t0" (.ok none) reqC8 rfl

end Darya
